import Mathlib

/-!
# Particle morph engine of the `cosmos` visualisation

A shallow embedding of `src/utils/MathUtils.js`, `src/particles/ParticleSystem.js`,
`src/particles/shaders.js` and `src/core/SceneManager.js`.

Conventions of the embedding.

* JavaScript numbers are elements of a linearly ordered field `α` (instantiated
  at `ℚ` or `ℝ`). The arithmetic inside the shape generators and in the closed
  form of the mix animation is exact. Rounding is modelled where a stored or
  tested value depends on it: `binary64` rounds to the nearest double and
  `fround` to the nearest float32 (ties to even, exponent range unbounded: no
  overflow and no subnormal numbers); every store into a `Float32Array` narrows
  with `fround`, and the frame of `animateMix` (`MixLoop.frame64`), the loop
  of `zoomCamera` and the scaling of the points in `SceneManager.setShape` round
  each operation with `binary64`.
* An array of point objects is a list of references into a list of objects, so
  that one object may occur at several indices and a write to it is seen at
  all of them.
* The host functions `Math.cos`, `Math.sin`, `Math.acos`, `Math.pow`,
  `Math.random` and the constant `Math.PI` are not code of the repository: they
  are the fields of a record `JSMath` handed to every function that calls them.
  `Math.random` is the stream of its successive results, and a function that
  draws from it receives the number of draws made so far and returns the new one.
* Particle and scene indices are natural numbers.
* A typed array is the list of its elements; a write at an index outside the
  array is dropped, as in JavaScript (`List.set`).
* A call that may raise an exception returns a `Completion`, which keeps the
  state reached when the exception was raised.
-/

namespace Cosmos

variable {α : Type} [LinearOrderedField α]

/-! ## Host environment -/

/-- Host functions of the JavaScript `Math` object used by the sources. `random n` is
the value returned by the `n`-th call of `Math.random()`, and `NaN` is the number a
`Float32Array` stores when it is assigned `undefined`. -/
structure JSMath (α : Type) where
  PI : α
  cos : α → α
  sin : α → α
  acos : α → α
  pow : α → α → α
  random : ℕ → α
  NaN : α

/-- An object literal `{ x, y, z }`. -/
@[ext]
structure Vec3 (α : Type) where
  x : α
  y : α
  z : α

/-- Outcome of a call: it returned normally, or it raised `err`; in both cases `state`
is the state of the mutable objects at that moment. -/
inductive Completion (σ : Type) where
  | normal (state : σ) : Completion σ
  | throw (err : String) (state : σ) : Completion σ

/-- State left behind by a call, however it completed. -/
def Completion.state {σ : Type} : Completion σ → σ
  | .normal s => s
  | .throw _ s => s

/-- Whether the call returned normally. -/
def Completion.returned {σ : Type} : Completion σ → Bool
  | .normal _ => true
  | .throw _ _ => false

/-! ## Rounding -/

/-- Nearest integer to `t`, a tie going to the even neighbour. -/
def roundHalfEven [FloorRing α] (t : α) : ℤ :=
  if t - (⌊t⌋ : α) < 1 / 2 then ⌊t⌋
  else if 1 / 2 < t - (⌊t⌋ : α) then ⌊t⌋ + 1
  else if ⌊t⌋ % 2 = 0 then ⌊t⌋ else ⌊t⌋ + 1

/-- Rounding of `x` to the nearest number with `prec` significant binary digits, ties to
even: with `2 ^ L ≤ |x| < 2 ^ (L + 1)` the result is the nearest multiple of
`2 ^ (L - (prec - 1))`. The exponent is unbounded. -/
def roundToPrecision [FloorRing α] (prec : ℕ) (x : α) : α :=
  if x = 0 then 0
  else
    let e : ℤ := Int.log 2 |x| - ((prec : ℤ) - 1)
    (roundHalfEven (x / 2 ^ e) : α) * 2 ^ e

/-- The double nearest to `x`: the result of a JavaScript arithmetic operation whose exact
result is `x`, and the value of a numeric literal. -/
def binary64 [FloorRing α] (x : α) : α :=
  roundToPrecision 53 x

/-- The function `Math.fround`: the float32 nearest to `x`, which is what a store into a
`Float32Array` keeps. -/
def fround [FloorRing α] (x : α) : α :=
  roundToPrecision 24 x

/-! ## `src/utils/MathUtils.js` -/

/-- In `getDNAPoint`: `const t = index / total`. -/
def getDNAPoint.t (index total : ℕ) : α :=
  (index : α) / (total : α)

/-- In `getDNAPoint`: `const angle = t * Math.PI * 20`. -/
def getDNAPoint.angle (M : JSMath α) (index total : ℕ) : α :=
  getDNAPoint.t index total * M.PI * 20

/-- In `getDNAPoint`: `const offset = isStrandA ? 0 : Math.PI` with
`isStrandA = index % 2 === 0`. -/
def getDNAPoint.offset (M : JSMath α) (index : ℕ) : α :=
  if index % 2 = 0 then 0 else M.PI

/-- In `getDNAPoint`: the argument `angle + offset` of `Math.cos` and `Math.sin`. -/
def getDNAPoint.phase (M : JSMath α) (index total : ℕ) : α :=
  getDNAPoint.angle M index total + getDNAPoint.offset M index

/-- The function `getDNAPoint(index, total)`. -/
def getDNAPoint (M : JSMath α) (index total : ℕ) : Vec3 α :=
  let length : α := 60
  let radius : α := 4
  let t : α := getDNAPoint.t index total
  let y : α := (t * length) - (length / 2)
  let x : α := radius * M.cos (getDNAPoint.phase M index total)
  let z : α := radius * M.sin (getDNAPoint.phase M index total)
  if index % 50 < 5 then
    { x := x * ((index % 50 : ℕ) : α) / 5
      y := y
      z := z * ((index % 50 : ℕ) : α) / 5 }
  else
    { x := x, y := y, z := z }

/-- In `getGalaxyPoint`: `randomSpread = () => (Math.random() - 0.5) * (10 - spin * 8)`,
for the draw `d`. -/
def getGalaxyPoint.randomSpread (spin d : α) : α :=
  (d - 0.5) * (10 - spin * 8)

/-- The function `getGalaxyPoint(index, total)`, called after `k` draws of `Math.random`.
The draws are made in the order of evaluation: the spread of `x`, then `y`, then the spread
of `z`. -/
def getGalaxyPoint (M : JSMath α) (index total : ℕ) (k : ℕ) : Vec3 α × ℕ :=
  let arms : ℕ := 3
  let spin : α := (index : α) / (total : α)
  let armIndex : ℕ := index % arms
  let radiusMax : α := 35
  let spiralTightness : α := 0.5
  let angle : α := (spin * M.PI * 2 * 3) + ((armIndex : α) * (M.PI * 2 / (arms : α)))
  let radius : α := M.pow spin spiralTightness * radiusMax
  let x : α := M.cos angle * radius + getGalaxyPoint.randomSpread spin (M.random k)
  let y : α := (M.random (k + 1) - 0.5) * (radius * 0.1)
  let z : α := M.sin angle * radius + getGalaxyPoint.randomSpread spin (M.random (k + 2))
  ({ x := x, y := y, z := z }, k + 3)

/-- In `getGalaxyPoint`: `const spin = index / total`, the progress of the particle. -/
def getGalaxyPoint.spin (index total : ℕ) : α :=
  (index : α) / (total : α)

/-- In `getGalaxyPoint`: `const angle = (spin * Math.PI * 2 * 3) + (armIndex * (Math.PI * 2 /
arms))` with `arms = 3` and `armIndex = index % arms`. -/
def getGalaxyPoint.angle (M : JSMath α) (index total : ℕ) : α :=
  (getGalaxyPoint.spin index total * M.PI * 2 * 3)
    + (((index % 3 : ℕ) : α) * (M.PI * 2 / ((3 : ℕ) : α)))

/-- In `getGalaxyPoint`: `const radius = Math.pow(spin, spiralTightness) * radiusMax` with
`spiralTightness = 0.5` and `radiusMax = 35`. -/
def getGalaxyPoint.radius (M : JSMath α) (index total : ℕ) : α :=
  M.pow (getGalaxyPoint.spin index total) 0.5 * 35

/-- The body of `getCellPoint` after its two draws `u` and `v`: the point `(x, y, z)` of
the sphere of radius `r = 8`, before the displacement. -/
def getCellPoint.sphere (M : JSMath α) (u v : α) : Vec3 α :=
  let theta : α := 2 * M.PI * u
  let phi : α := M.acos (2 * v - 1)
  let r : α := 8
  { x := r * M.sin phi * M.cos theta
    y := r * M.sin phi * M.sin theta
    z := r * M.cos phi }

/-- In `getCellPoint`: `displacement = 1 + noise * 0.2` with
`noise = Math.sin(x * 0.5) * Math.cos(y * 0.5)`. -/
def getCellPoint.displacement (M : JSMath α) (p : Vec3 α) : α :=
  let noise : α := M.sin (p.x * 0.5) * M.cos (p.y * 0.5)
  1 + (noise * 0.2)

/-- The body of `getCellPoint` for the draws `u` (first) and `v` (second). -/
def getCellPoint.ofDraws (M : JSMath α) (u v : α) : Vec3 α :=
  let p := getCellPoint.sphere M u v
  let displacement := getCellPoint.displacement M p
  { x := p.x * displacement
    y := p.y * displacement
    z := p.z * displacement }

/-- The function `getCellPoint(index, total)`, called after `k` draws of `Math.random`. -/
def getCellPoint (M : JSMath α) (_index _total : ℕ) (k : ℕ) : Vec3 α × ℕ :=
  (getCellPoint.ofDraws M (M.random k) (M.random (k + 1)), k + 2)

/-! ## `src/particles/shaders.js` -/

/-- The GLSL built-in `mix(x, y, a) = x * (1 - a) + y * a` on one component. -/
def mix (x y a : α) : α :=
  x * (1 - a) + y * a

/-! ## `src/particles/ParticleSystem.js` -/

/-- The mutable part of a `ParticleSystem` that the morph reads and writes: `count`, the
arrays of the attributes `position` and `targetPosition` (three numbers per particle) and
the uniforms `uMix` and `uSize`. -/
structure ParticleSystem (α : Type) where
  count : ℕ
  position : List α
  targetPosition : List α
  uMix : α
  uSize : α

/-- An array of point objects: element `i` of the array is the reference `refs[i]` to the
object `objects[refs[i]]`. The same reference may occur several times. A reference outside
`objects` stands for an element that is not an object. -/
structure PointArray (α : Type) where
  refs : List ℕ
  objects : List (Vec3 α)

/-- The array of freshly created objects `objects`, each occurring once, in order. -/
def PointArray.ofObjects (objects : List (Vec3 α)) : PointArray α :=
  { refs := List.range objects.length, objects := objects }

/-- The argument `extraData` (`data`) of the shape setters; `points = none` is the default
`{}`, whose `points` is `undefined`. -/
structure ExtraData (α : Type) where
  points : Option (PointArray α)

/-- The point objects reachable from `extraData`. -/
def ExtraData.objects (extraData : ExtraData α) : List (Vec3 α) :=
  match extraData.points with
  | none => []
  | some points => points.objects

/-- The method `TypedArray.prototype.set(source)`: the elements of `source` overwrite the
first elements of the array; a `RangeError` (here `none`) when `source` is longer. -/
def typedArraySet (array source : List α) : Option (List α) :=
  if source.length ≤ array.length then some (source ++ array.drop source.length) else none

/-- The three stores `array[i3] = x; array[i3 + 1] = y; array[i3 + 2] = z` with
`i3 = i * 3` into a `Float32Array`, which keeps the float32 nearest to each number. -/
def storePoint [FloorRing α] (array : List α) (i : ℕ) (p : Vec3 α) : List α :=
  ((array.set (i * 3) (fround p.x)).set (i * 3 + 1) (fround p.y)).set (i * 3 + 2) (fround p.z)

/-- Coordinate `c` (0, 1, 2) of the interpolated position of particle `i` computed by the
vertex shader: `mix(position, targetPosition, uMix)`. -/
def ParticleSystem.rendered (ps : ParticleSystem α) (i c : ℕ) : α :=
  mix (ps.position.getD (i * 3 + c) 0) (ps.targetPosition.getD (i * 3 + c) 0) ps.uMix

/-- The snapshot at the head of both shape setters: when `uMix` exceeds `threshold`,
`position.array.set(targetPosition.array)` and `uMix = 0`. -/
def snapshot (threshold : α) (ps : ParticleSystem α) : Completion (ParticleSystem α) :=
  if ps.uMix > threshold then
    match typedArraySet ps.position ps.targetPosition with
    | none => .throw "RangeError" ps
    | some position => .normal { ps with position := position, uMix := 0 }
  else
    .normal ps

/-- The body of the loop of `ParticleSystem.setTargetShape` for particle `i`, after `k`
draws: the point `(x, y, z)` it stores, or the `TypeError` of `data.points.length` when
`data.points` is `undefined` and of `data.points[i].x` when the element is not an object.
An unknown `shapeType` leaves `x`, `y`, `z` undefined. -/
def ParticleSystem.setTargetShape.point (M : JSMath α) (shapeType : String)
    (data : ExtraData α) (count i k : ℕ) : Except String (Vec3 α × ℕ) :=
  if shapeType = "CELL" then
    let r : α := 5
    let theta : α := M.random k * M.PI * 2
    let phi : α := M.acos ((M.random (k + 1) * 2) - 1)
    .ok ({ x := r * M.sin phi * M.cos theta
           y := r * M.sin phi * M.sin theta
           z := r * M.cos phi }, k + 2)
  else if shapeType = "DNA" then
    let t : α := ((i : α) / (count : α)) * 20 * M.PI
    let r : α := 3
    let offset : α := if i % 2 = 0 then 0 else M.PI
    .ok ({ x := r * M.cos (t + offset)
           y := ((i : α) / (count : α)) * 40 - 20
           z := r * M.sin (t + offset) }, k)
  else if shapeType = "GALAXY" then
    let angle : α := ((i : α) / (count : α)) * M.PI * 10
    let radius : α := ((i : α) / (count : α)) * 20
    .ok ({ x := M.cos angle * radius + (M.random k - 0.5)
           y := (M.random (k + 1) - 0.5) * 2
           z := M.sin angle * radius + (M.random (k + 2) - 0.5) }, k + 3)
  else if shapeType = "TEXT" then
    match data.points with
    | none => .error "TypeError"
    | some points =>
      if h : i < points.refs.length then
        match points.objects[points.refs[i]]? with
        | none => .error "TypeError"
        | some p => .ok ({ x := p.x, y := p.y, z := 0 }, k)
      else
        .ok ({ x := (M.random k - 0.5) * 50
               y := (M.random (k + 1) - 0.5) * 50
               z := (M.random (k + 2) - 0.5) * 50 }, k + 3)
  else
    .ok ({ x := M.NaN, y := M.NaN, z := M.NaN }, k)

/-- The loop `for (let i = 0; i < this.count; i++)` of `ParticleSystem.setTargetShape`,
with `n = count - i` iterations left, on the target array and the number of draws. -/
def ParticleSystem.setTargetShape.loop [FloorRing α] (M : JSMath α) (shapeType : String)
    (data : ExtraData α) (count : ℕ) : ℕ → ℕ → List α → ℕ → Completion (List α × ℕ)
  | 0, _, array, k => .normal (array, k)
  | n + 1, i, array, k =>
    match ParticleSystem.setTargetShape.point M shapeType data count i k with
    | .error e => .throw e (array, k)
    | .ok (p, k') =>
      ParticleSystem.setTargetShape.loop M shapeType data count n (i + 1)
        (storePoint array i p) k'

/-- The method `ParticleSystem.setTargetShape(shapeType, data)`, called after `k` draws. -/
def ParticleSystem.setTargetShape [FloorRing α] (M : JSMath α) (shapeType : String)
    (data : ExtraData α) (ps : ParticleSystem α) (k : ℕ) :
    Completion (ParticleSystem α × ℕ) :=
  match snapshot 0.9 ps with
  | .throw e ps1 => .throw e (ps1, k)
  | .normal ps1 =>
    match ParticleSystem.setTargetShape.loop M shapeType data ps1.count ps1.count 0
        ps1.targetPosition k with
    | .throw e (array, k') => .throw e ({ ps1 with targetPosition := array }, k')
    | .normal (array, k') => .normal ({ ps1 with targetPosition := array }, k')

/-! ## `src/core/SceneManager.js`: shapes -/

/-- The `switch (type)` in the loop of `SceneManager.setShape` for particle `i`, after `k`
draws and with the point objects `objects`: the point `p` it leaves, with the number of
draws and the point objects after it, or the `TypeError` of `extraData.points.length` when
`extraData.points` is `undefined` and of `p.x *= 1.5` when the element is not an object. No
case matches an unknown `type`, and `p` stays `{ x: 0, y: 0, z: 0 }`. In the case `TEXT`
`p` is the object `extraData.points[i]` itself, so `p.x *= 1.5; p.y *= 1.5` writes to that
object. The products of `*= 1.5` and `*= 6` are rounded to double. -/
def SceneManager.setShape.point [FloorRing α] (M : JSMath α) (type : String)
    (extraData : ExtraData α) (count i k : ℕ) (objects : List (Vec3 α)) :
    Except String (Vec3 α × ℕ × List (Vec3 α)) :=
  match type with
  | "CELL" => .ok ((getCellPoint M i count k).1, (getCellPoint M i count k).2, objects)
  | "DNA" => .ok (getDNAPoint M i count, k, objects)
  | "GALAXY" => .ok ((getGalaxyPoint M i count k).1, (getGalaxyPoint M i count k).2, objects)
  | "TEXT" =>
    match extraData.points with
    | none => .error "TypeError"
    | some points =>
      if h : i < points.refs.length then
        match objects[points.refs[i]]? with
        | none => .error "TypeError"
        | some p =>
          let p1 : Vec3 α := { x := binary64 (p.x * 1.5), y := binary64 (p.y * 1.5), z := p.z }
          .ok (p1, k, objects.set points.refs[i] p1)
      else
        let p := (getGalaxyPoint M i count k).1
        .ok ({ x := binary64 (p.x * 6), y := binary64 (p.y * 6), z := binary64 (p.z * 6) },
          (getGalaxyPoint M i count k).2, objects)
  | _ => .ok ({ x := 0, y := 0, z := 0 }, k, objects)

/-- The loop `for (let i = 0; i < count; i++)` of `SceneManager.setShape`, with
`n = count - i` iterations left, on the target array, the number of draws and the point
objects. -/
def SceneManager.setShape.loop [FloorRing α] (M : JSMath α) (type : String)
    (extraData : ExtraData α) (count : ℕ) :
    ℕ → ℕ → List α → ℕ → List (Vec3 α) → Completion (List α × ℕ × List (Vec3 α))
  | 0, _, array, k, objects => .normal (array, k, objects)
  | n + 1, i, array, k, objects =>
    match SceneManager.setShape.point M type extraData count i k objects with
    | .error e => .throw e (array, k, objects)
    | .ok (p, k', objects') =>
      SceneManager.setShape.loop M type extraData count n (i + 1) (storePoint array i p) k'
        objects'

/-- The method `SceneManager.setShape(type, extraData)` on the particle system of the scene
manager, called after `k` draws: the particle system, the number of draws and the point
objects of `extraData` after the call. -/
def SceneManager.setShape [FloorRing α] (M : JSMath α) (type : String)
    (extraData : ExtraData α) (pSystem : ParticleSystem α) (k : ℕ) :
    Completion (ParticleSystem α × ℕ × List (Vec3 α)) :=
  match snapshot 0.5 pSystem with
  | .throw e ps1 => .throw e (ps1, k, extraData.objects)
  | .normal ps1 =>
    match SceneManager.setShape.loop M type extraData ps1.count ps1.count 0
        ps1.targetPosition k extraData.objects with
    | .throw e (array, k', objects) => .throw e ({ ps1 with targetPosition := array }, k', objects)
    | .normal (array, k', objects) =>
      .normal ({ ps1 with targetPosition := array }, k', objects)

/-! ## `src/core/SceneManager.js`: the mix animation -/

/-- The variables captured by the closure `loop` of `animateMix`. The parameter `start` is
captured as well but never read. -/
structure MixLoop (α : Type) where
  start : α
  end_ : α
  duration : α
  startTime : α
  startVal : α

/-- In `loop`: `p = Math.min((now - startTime) / (duration * 1000), 1)`. -/
def MixLoop.p (L : MixLoop α) (now : α) : α :=
  min ((now - L.startTime) / (L.duration * 1000)) 1

/-- In `loop`: `ease = 1 - Math.pow(1 - p, 3)`, the power with the literal exponent 3
being the cube. -/
def MixLoop.ease (L : MixLoop α) (now : α) : α :=
  1 - (1 - L.p now) ^ 3

/-- The value `startVal + (end - startVal) * ease` that a frame at time `now` writes to
`uMix`. -/
def MixLoop.value (L : MixLoop α) (now : α) : α :=
  L.startVal + (L.end_ - L.startVal) * L.ease now

/-- In `loop`, in binary64: `p = Math.min((now - startTime) / (duration * 1000), 1)`, each
of the subtraction, the product and the quotient rounded. -/
def MixLoop.p64 [FloorRing α] (L : MixLoop α) (now : α) : α :=
  min (binary64 (binary64 (now - L.startTime) / binary64 (L.duration * 1000))) 1

/-- In `loop`, in binary64: `ease = 1 - Math.pow(1 - p, 3)`, with the host function
`Math.pow`. -/
def MixLoop.ease64 [FloorRing α] (M : JSMath α) (L : MixLoop α) (now : α) : α :=
  binary64 (1 - M.pow (binary64 (1 - L.p64 now)) 3)

/-- The value `startVal + (end - startVal) * ease` that a frame at time `now` writes to
`uMix`, in binary64. -/
def MixLoop.value64 [FloorRing α] (M : JSMath α) (L : MixLoop α) (now : α) : α :=
  binary64 (L.startVal + binary64 (binary64 (L.end_ - L.startVal) * L.ease64 M now))

/-- One run of the closure `loop` at the time `now`, in binary64: the particle system after
the write to `uMix`, and whether `requestAnimationFrame(loop)` was called (`p < 1`). -/
def MixLoop.frame64 [FloorRing α] (M : JSMath α) (L : MixLoop α) (now : α)
    (ps : ParticleSystem α) : ParticleSystem α × Bool :=
  ({ ps with uMix := L.value64 M now }, decide (L.p64 now < 1))

/-- One run of the closure `loop` at the time `now` read from `performance.now()`: the
particle system after the write to `uMix`, and whether `requestAnimationFrame(loop)` was
called (`p < 1`). -/
def MixLoop.frame (L : MixLoop α) (now : α) (ps : ParticleSystem α) :
    ParticleSystem α × Bool :=
  ({ ps with uMix := L.value now }, decide (L.p now < 1))

/-- The method `animateMix(start, end, duration)`: `startTime` is the first reading of
`performance.now()`, `startVal` the current `uMix`, and the first frame runs inside the
call, at the second reading `now`. Returns the closure, the particle system and whether a
further frame was requested. -/
def SceneManager.animateMix (start end_ duration : α) (startTime now : α)
    (ps : ParticleSystem α) : MixLoop α × ParticleSystem α × Bool :=
  let L : MixLoop α :=
    { start := start, end_ := end_, duration := duration, startTime := startTime,
      startVal := ps.uMix }
  (L, L.frame now ps)

/-! ## `src/core/SceneManager.js`: the scene sequence

The sequencer is single-threaded: a call of the `async` method `nextScene` runs up to its
`await this.updateText(...)`, and the rest of the matching `case` runs when the timer of
`updateText` fires. The state below holds the fields of the scene manager and of the page
that the sequence touches, the pending timers, and the calls made on the particle system
and the camera, in the order in which they were made. Time is in milliseconds. -/

/-- A call that the scene sequence makes on a collaborator. -/
inductive Call where
  | setShape (type : String) : Call
  | setSize (value : ℚ) : Call
  | animateMix (start end_ duration : ℚ) : Call
  | sampleTextCoordinates (text : String) (fontSize : ℕ) : Call
  | zoomCamera (startZ endZ : ℚ) : Call
  deriving DecidableEq

/-- A callback registered with `setTimeout`. -/
inductive Callback where
  /-- The timer of `updateText(newText)` awaited by `case scene` of `nextScene`. -/
  | textFaded (newText : String) (scene : ℕ) : Callback
  /-- The callback `() => this.nextScene()`. -/
  | advance : Callback
  /-- The callback `() => { this.interaction.isActive = false; this.nextScene(); }`. -/
  | leaveNetwork : Callback
  deriving DecidableEq

/-- State of the scene manager and of what its sequence touches. -/
structure SceneManager where
  currentScene : ℕ
  customName : String
  texts : List String
  btnDisplayNone : Bool
  fadeOut : Bool
  heading : String
  interactionActive : Bool
  calls : List Call
  timers : List (ℕ × Callback)
  now : ℕ
  deriving DecidableEq

/-- The constructor of `SceneManager`, at time 0: scene 0, the default name, and the
calls `this.setShape('CELL')` and `this.animateMix(0, 0, 1.0)`. -/
def SceneManager.new : SceneManager :=
  { currentScene := 0
    customName := "Explorer"
    texts := ["Encoded with brilliance.", "Driven by curiosity.", "Built to explore.",
      "Happy Birthday, "]
    btnDisplayNone := false
    fadeOut := false
    heading := ""
    interactionActive := false
    calls := [.setShape "CELL", .animateMix 0 0 1.0]
    timers := []
    now := 0 }

/-- The call `setTimeout(callback, delay)`. -/
def SceneManager.setTimeout (sm : SceneManager) (callback : Callback) (delay : ℕ) :
    SceneManager :=
  { sm with timers := sm.timers ++ [(sm.now + delay, callback)] }

/-- The method `updateText(newText)` up to its `await`: the container starts to fade out
and a timer of 1000 ms is set; `scene` is the `case` of `nextScene` that awaits it. -/
def SceneManager.updateText (sm : SceneManager) (newText : String) (scene : ℕ) :
    SceneManager :=
  SceneManager.setTimeout { sm with fadeOut := true } (.textFaded newText scene) 1000

/-- The method `nextScene()` up to the `await` of its `case`: the scene counter is
incremented, the button is hidden when the counter is 1, and the text update of the case
is started. There is no case for a counter above 4. -/
def SceneManager.nextScene (sm : SceneManager) : SceneManager :=
  let sm := { sm with currentScene := sm.currentScene + 1 }
  let sm := if sm.currentScene = 1 then { sm with btnDisplayNone := true } else sm
  match sm.currentScene with
  | 1 => sm.updateText (sm.texts.getD 0 "") 1
  | 2 => sm.updateText (sm.texts.getD 1 "") 2
  | 3 => sm.updateText (sm.texts.getD 2 "") 3
  | 4 => sm.updateText (sm.texts.getD 3 "" ++ sm.customName) 4
  | _ => sm

/-- The listener installed by `setupBindings` on the button: `() => this.nextScene()`. -/
def SceneManager.onClick (sm : SceneManager) : SceneManager :=
  sm.nextScene

/-- The rest of `case scene` of `nextScene`, after `await this.updateText(...)`. -/
def SceneManager.resume (sm : SceneManager) (scene : ℕ) : SceneManager :=
  match scene with
  | 1 =>
    SceneManager.setTimeout
      { sm with calls := sm.calls ++ [.setShape "DNA", .setSize 1.0, .animateMix 0 1 3.0] }
      .advance 7000
  | 2 =>
    SceneManager.setTimeout
      { sm with
        calls := sm.calls ++ [.setShape "CELL", .setSize 2.0, .animateMix 0 1 2.5]
        interactionActive := true }
      .leaveNetwork 6000
  | 3 =>
    SceneManager.setTimeout
      { sm with calls := sm.calls ++ [.setShape "GALAXY", .setSize 1.0, .animateMix 0 1 4.0] }
      .advance 7000
  | 4 =>
    { sm with
      calls := sm.calls ++ [.sampleTextCoordinates sm.customName 120, .setShape "TEXT",
        .animateMix 0 1 4.0, .zoomCamera 40 60] }
  | _ => sm

/-- Running a callback whose timer fired. -/
def SceneManager.fire (sm : SceneManager) : Callback → SceneManager
  | .textFaded newText scene =>
    SceneManager.resume { sm with heading := newText, fadeOut := false } scene
  | .advance => sm.nextScene
  | .leaveNetwork => SceneManager.nextScene { sm with interactionActive := false }

/-- The pending timer that fires next: the earliest one, the first registered among equals;
returned with the other timers. -/
def earliestTimer : List (ℕ × Callback) → Option ((ℕ × Callback) × List (ℕ × Callback))
  | [] => none
  | t :: ts =>
    match earliestTimer ts with
    | none => some (t, [])
    | some (u, rest) => if t.1 ≤ u.1 then some (t, ts) else some (u, t :: rest)

/-- One turn of the event loop: the next timer fires at its due time; `none` when no timer
is pending. -/
def SceneManager.turn (sm : SceneManager) : Option SceneManager :=
  match earliestTimer sm.timers with
  | none => none
  | some ((due, callback), rest) =>
    some (SceneManager.fire { sm with timers := rest, now := max sm.now due } callback)

/-- At most `n` turns of the event loop, stopping when no timer is pending. -/
def SceneManager.run : ℕ → SceneManager → SceneManager
  | 0, sm => sm
  | n + 1, sm =>
    match sm.turn with
    | none => sm
    | some sm1 => SceneManager.run n sm1

/-- The types of the calls of `setShape` among `calls`, in order. -/
def shapesSet : List Call → List String
  | [] => []
  | .setShape type :: cs => type :: shapesSet cs
  | _ :: cs => shapesSet cs

/-! ## `src/core/SceneManager.js`: the camera dolly -/

/-- One frame of the closure `animate` of `zoomCamera`, in binary64: the new value of
`currentZ` after `currentZ += (endZ - currentZ) * 0.02`. -/
def SceneManager.zoomCamera.step [FloorRing α] (endZ currentZ : α) : α :=
  binary64 (currentZ + binary64 (binary64 (endZ - currentZ) * binary64 0.02))

/-- The closure `animate` of `zoomCamera`, run frame after frame from `currentZ`: each frame
adds `(endZ - currentZ) * 0.02` to `currentZ`, writes it to `camera.position.z` and requests
another frame while `Math.abs(endZ - currentZ) > 0.1`, the difference and the literal `0.1`
being doubles. The result is the list of the values written, one per frame, or `none` when
more than `fuel` frames are needed. -/
def SceneManager.zoomCamera.animate [FloorRing α] (endZ : α) : ℕ → α → Option (List α)
  | 0, _ => none
  | fuel + 1, currentZ =>
    let currentZ1 : α := SceneManager.zoomCamera.step endZ currentZ
    if |binary64 (endZ - currentZ1)| > binary64 0.1 then
      (SceneManager.zoomCamera.animate endZ fuel currentZ1).map (fun zs => currentZ1 :: zs)
    else
      some [currentZ1]

/-- The method `zoomCamera(startZ, endZ)`: `currentZ = startZ`, then the frames of
`animate`. -/
def SceneManager.zoomCamera [FloorRing α] (startZ endZ : α) (fuel : ℕ) : Option (List α) :=
  SceneManager.zoomCamera.animate endZ fuel startZ

/-! ## `src/utils/TextSampler.js` -/

/-- The function `sampleTextCoordinates(text, particleCount, fontSize)`. The canvas belongs
to the host: `getImageData text fontSize` is the array `imageData.data` of the 1024 × 512
canvas after the text was drawn. The two loops visit the rows `y = 0, 4, .., 508` and in
each row the columns `x = 0, 4, .., 1020`, and push a new point object for every pixel whose
first byte exceeds 128. The result is the list of the objects pushed; the array returned is
`PointArray.ofObjects` of it. -/
def sampleTextCoordinates (getImageData : String → ℕ → ℕ → ℕ) (text : String)
    (_particleCount : ℕ) (fontSize : ℕ) : List (Vec3 α) :=
  let width : ℕ := 1024
  let height : ℕ := 512
  let data := getImageData text fontSize
  (List.range (height / 4)).flatMap fun row =>
    (List.range (width / 4)).filterMap fun col =>
      let y : ℕ := row * 4
      let x : ℕ := col * 4
      let index : ℕ := (y * width + x) * 4
      if data index > 128 then
        some { x := ((x : α) - (width : α) / 2) * 0.1
               y := -((y : α) - (height : α) / 2) * 0.1
               z := 0 }
      else
        none

/-! ## Rounding to the nearest double or float32 -/

section Rounding

variable [FloorRing α]

theorem roundHalfEven_intCast (n : ℤ) : roundHalfEven (n : α) = n := by
  simp [roundHalfEven]

theorem roundHalfEven_eq_of_close (t : α) (n : ℤ) (h : |t - n| < 1 / 2) :
    roundHalfEven t = n := by
  rw [abs_lt] at h
  rcases le_or_lt (n : α) t with hn | hn
  · have hf : ⌊t⌋ = n := Int.floor_eq_iff.mpr ⟨hn, by linarith⟩
    have : t - (n : α) < 1 / 2 := h.2
    simp only [roundHalfEven, hf, this, if_true]
  · have hf : ⌊t⌋ = n - 1 := Int.floor_eq_iff.mpr ⟨by push_cast; linarith, by push_cast; linarith⟩
    have h1 : ¬ t - ((n - 1 : ℤ) : α) < 1 / 2 := by push_cast; linarith
    have h2 : 1 / 2 < t - ((n - 1 : ℤ) : α) := by push_cast; linarith
    simp only [roundHalfEven, hf, h1, h2, if_true, if_false]
    omega

theorem roundHalfEven_abs_sub_le (t : α) : |(roundHalfEven t : α) - t| ≤ 1 / 2 := by
  have h1 := Int.floor_le t
  have h2 := Int.lt_floor_add_one t
  rw [abs_le]
  unfold roundHalfEven
  split_ifs with ha hb hc <;> push_cast <;> constructor <;> linarith

theorem roundHalfEven_floor_le (t : α) : ⌊t⌋ ≤ roundHalfEven t := by
  unfold roundHalfEven
  split_ifs <;> omega

theorem roundHalfEven_le_floor_add_one (t : α) : roundHalfEven t ≤ ⌊t⌋ + 1 := by
  unfold roundHalfEven
  split_ifs <;> omega

theorem roundHalfEven_mono (s t : α) (h : s ≤ t) : roundHalfEven s ≤ roundHalfEven t := by
  have hfl : ⌊s⌋ ≤ ⌊t⌋ := Int.floor_mono h
  rcases lt_or_eq_of_le hfl with hlt | heq
  · have h1 := roundHalfEven_le_floor_add_one s
    have h2 := roundHalfEven_floor_le t
    omega
  · unfold roundHalfEven
    rw [← heq]
    split_ifs <;> first | omega | (exfalso; linarith)

theorem roundHalfEven_neg (t : α) : roundHalfEven (-t) = -roundHalfEven t := by
  have h1 := Int.floor_le t
  have h2 := Int.lt_floor_add_one t
  rcases eq_or_lt_of_le h1 with heq | hlt
  · have : -t = ((-⌊t⌋ : ℤ) : α) := by push_cast; rw [heq]
    rw [this, roundHalfEven_intCast]
    nth_rewrite 2 [← heq]
    rw [roundHalfEven_intCast]
  · have hf : ⌊-t⌋ = -⌊t⌋ - 1 :=
      Int.floor_eq_iff.mpr ⟨by push_cast; linarith, by push_cast; linarith⟩
    unfold roundHalfEven
    rw [hf]
    push_cast
    split_ifs <;> first | omega | (exfalso; linarith)

theorem two_zpow_log_le (r : α) (hr : 0 < r) : (2 : α) ^ Int.log 2 r ≤ r := by
  have h := Int.zpow_log_le_self (b := 2) (by norm_num) hr
  simpa using h

theorem lt_two_zpow_log_succ (r : α) : r < (2 : α) ^ (Int.log 2 r + 1) := by
  have h := Int.lt_zpow_succ_log_self (b := 2) (by norm_num) r
  simpa using h

theorem log_two_eq (r : α) (k : ℤ) (hr : 0 < r) (hlo : (2 : α) ^ k ≤ r)
    (hhi : r < (2 : α) ^ (k + 1)) : Int.log 2 r = k := by
  have h1 : k ≤ Int.log 2 r :=
    (Int.zpow_le_iff_le_log (b := 2) (by norm_num) hr).mp (by simpa using hlo)
  have h2 : Int.log 2 r < k + 1 :=
    (Int.lt_zpow_iff_log_lt (b := 2) (by norm_num) hr).mp (by simpa using hhi)
  omega

omit [FloorRing α] in
theorem two_zpow_pos (k : ℤ) : (0 : α) < (2 : α) ^ k := zpow_pos (by norm_num) k

omit [FloorRing α] in
theorem two_zpow_lt_imp (a b : ℤ) (h : (2 : α) ^ a < (2 : α) ^ b) : a < b := by
  by_contra hc
  have := zpow_le_zpow_right₀ (a := (2 : α)) (by norm_num) (not_lt.mp hc)
  exact absurd h (not_lt.mpr this)

theorem roundToPrecision_zero (p : ℕ) : roundToPrecision p (0 : α) = 0 := by
  simp [roundToPrecision]

theorem roundToPrecision_neg (p : ℕ) (x : α) :
    roundToPrecision p (-x) = -roundToPrecision p x := by
  by_cases hx : x = 0
  · simp [hx, roundToPrecision_zero]
  · have hn : -x ≠ 0 := neg_ne_zero.mpr hx
    simp only [roundToPrecision, hx, hn, if_false, abs_neg, neg_div, roundHalfEven_neg]
    push_cast
    ring

/-- A rounding computed from a certificate: with `2 ^ (e + prec - 1) ≤ |x| < 2 ^ (e + prec)`
and `x / 2 ^ e` strictly closer than `1 / 2` to the integer `n`, the result is `n * 2 ^ e`. -/
theorem roundToPrecision_eq_of_close (p : ℕ) (x : α) (e n : ℤ) (hx : x ≠ 0)
    (hlo : (2 : α) ^ (e + ((p : ℤ) - 1)) ≤ |x|) (hhi : |x| < (2 : α) ^ (e + (p : ℤ)))
    (hc : |x / 2 ^ e - n| < 1 / 2) : roundToPrecision p x = n * 2 ^ e := by
  have hlog : Int.log 2 |x| = e + ((p : ℤ) - 1) :=
    log_two_eq |x| _ (abs_pos.mpr hx) hlo (by
      have : e + ((p : ℤ) - 1) + 1 = e + (p : ℤ) := by ring
      rw [this]; exact hhi)
  have he : e + ((p : ℤ) - 1) - ((p : ℤ) - 1) = e := by ring
  simp only [roundToPrecision, hx, if_false, hlog, he]
  rw [roundHalfEven_eq_of_close _ n hc]

theorem roundToPrecision_of_int_mul_zpow (p : ℕ) (n k : ℤ) (hn : |n| < 2 ^ p) :
    roundToPrecision p ((n : α) * 2 ^ k) = n * 2 ^ k := by
  by_cases h0 : n = 0
  · simp [h0, roundToPrecision_zero]
  · have hx : (n : α) * 2 ^ k ≠ 0 :=
      mul_ne_zero (by exact_mod_cast h0) (two_zpow_pos k).ne.symm
    have habs : |(n : α) * 2 ^ k| = |(n : α)| * 2 ^ k := by
      rw [abs_mul, abs_of_pos (show (0 : α) < 2 ^ k from two_zpow_pos k)]
    have hn1 : |(n : α)| < 2 ^ (p : ℤ) := by
      rw [zpow_natCast]
      have : ((|n| : ℤ) : α) < ((2 ^ p : ℤ) : α) := by exact_mod_cast hn
      simpa using this
    have hL := two_zpow_log_le _ (abs_pos.mpr hx)
    have hlt : (2 : α) ^ Int.log 2 |(n : α) * 2 ^ k| < (2 : α) ^ ((p : ℤ) + k) := by
      rw [zpow_add₀ (by norm_num : (2 : α) ≠ 0)]
      calc (2 : α) ^ Int.log 2 |(n : α) * 2 ^ k| ≤ |(n : α)| * 2 ^ k := by rw [← habs]; exact hL
        _ < 2 ^ (p : ℤ) * 2 ^ k := mul_lt_mul_of_pos_right hn1 (two_zpow_pos k)
    have hlt2 := two_zpow_lt_imp _ _ hlt
    simp only [roundToPrecision, hx, if_false]
    generalize Int.log 2 |(n : α) * 2 ^ k| = L at hlt2 ⊢
    obtain ⟨d, hd⟩ : ∃ d : ℕ, k = L - ((p : ℤ) - 1) + d :=
      ⟨(k - (L - ((p : ℤ) - 1))).toNat, by omega⟩
    have h2 : (2 : α) ≠ 0 := by norm_num
    have hpe := two_zpow_pos (α := α) (L - ((p : ℤ) - 1))
    have hk : (2 : α) ^ k = 2 ^ (L - ((p : ℤ) - 1)) * 2 ^ d := by
      rw [hd, zpow_add₀ h2, zpow_natCast]
    have hquot : (n : α) * 2 ^ k / 2 ^ (L - ((p : ℤ) - 1)) = ((n * 2 ^ d : ℤ) : α) := by
      rw [hk]
      push_cast
      field_simp
      ring
    rw [hquot, roundHalfEven_intCast, hk]
    push_cast
    ring

theorem roundToPrecision_pos_bounds (p : ℕ) (hp : 1 ≤ p) (x : α) (hx : 0 < x) :
    (2 : α) ^ Int.log 2 x ≤ roundToPrecision p x ∧
    roundToPrecision p x ≤ (2 : α) ^ (Int.log 2 x + 1) := by
  obtain ⟨q, rfl⟩ : ∃ q : ℕ, p = q + 1 := ⟨p - 1, by omega⟩
  have hL := two_zpow_log_le x hx
  have hU := lt_two_zpow_log_succ x
  have hx0 : x ≠ 0 := hx.ne.symm
  have he : ((q + 1 : ℕ) : ℤ) - 1 = (q : ℤ) := by push_cast; ring
  have h2 : (2 : α) ≠ 0 := by norm_num
  have hpe := two_zpow_pos (α := α) (Int.log 2 x - (q : ℤ))
  have hsplit : (2 : α) ^ Int.log 2 x = 2 ^ q * 2 ^ (Int.log 2 x - (q : ℤ)) := by
    rw [← zpow_natCast, ← zpow_add₀ h2]
    congr 1
    ring
  have hsplit1 : (2 : α) ^ (Int.log 2 x + 1) = 2 ^ (q + 1) * 2 ^ (Int.log 2 x - (q : ℤ)) := by
    rw [← zpow_natCast, ← zpow_add₀ h2]
    congr 1
    push_cast
    ring
  have hlo : (((2 ^ q : ℕ) : ℤ) : α) ≤ x / 2 ^ (Int.log 2 x - (q : ℤ)) := by
    rw [le_div_iff₀ hpe]
    push_cast
    rw [← hsplit]
    exact hL
  have hhi : x / 2 ^ (Int.log 2 x - (q : ℤ)) ≤ (((2 ^ (q + 1) : ℕ) : ℤ) : α) := by
    rw [div_le_iff₀ hpe]
    push_cast
    rw [← hsplit1]
    exact hU.le
  have hr1 := roundHalfEven_mono _ _ hlo
  have hr2 := roundHalfEven_mono _ _ hhi
  rw [roundHalfEven_intCast] at hr1 hr2
  have hr1c : ((2 : α) ^ q) ≤ (roundHalfEven (x / 2 ^ (Int.log 2 x - (q : ℤ))) : α) := by
    have : (((2 ^ q : ℕ) : ℤ) : α) ≤ (roundHalfEven (x / 2 ^ (Int.log 2 x - (q : ℤ))) : α) := by
      exact_mod_cast hr1
    simpa using this
  have hr2c : (roundHalfEven (x / 2 ^ (Int.log 2 x - (q : ℤ))) : α) ≤ (2 : α) ^ (q + 1) := by
    have : (roundHalfEven (x / 2 ^ (Int.log 2 x - (q : ℤ))) : α) ≤ (((2 ^ (q + 1) : ℕ) : ℤ) : α) := by
      exact_mod_cast hr2
    simpa using this
  simp only [roundToPrecision, hx0, if_false, abs_of_pos hx, he]
  rw [hsplit, hsplit1]
  exact ⟨mul_le_mul_of_nonneg_right hr1c hpe.le, mul_le_mul_of_nonneg_right hr2c hpe.le⟩

theorem roundToPrecision_pos (p : ℕ) (hp : 1 ≤ p) (x : α) (hx : 0 < x) :
    0 < roundToPrecision p x :=
  lt_of_lt_of_le (two_zpow_pos _) (roundToPrecision_pos_bounds p hp x hx).1

theorem roundToPrecision_nonneg (p : ℕ) (hp : 1 ≤ p) (x : α) (hx : 0 ≤ x) :
    0 ≤ roundToPrecision p x := by
  rcases eq_or_lt_of_le hx with h | h
  · rw [← h, roundToPrecision_zero]
  · exact (roundToPrecision_pos p hp x h).le

theorem roundToPrecision_nonpos (p : ℕ) (hp : 1 ≤ p) (x : α) (hx : x ≤ 0) :
    roundToPrecision p x ≤ 0 := by
  have h := roundToPrecision_nonneg p hp (-x) (neg_nonneg.mpr hx)
  rw [roundToPrecision_neg] at h
  linarith

theorem roundToPrecision_mono_pos (p : ℕ) (hp : 1 ≤ p) (x y : α) (hx : 0 < x) (hxy : x ≤ y) :
    roundToPrecision p x ≤ roundToPrecision p y := by
  have hy : 0 < y := lt_of_lt_of_le hx hxy
  have hlog := Int.log_mono_right (b := 2) hx hxy
  rcases lt_or_eq_of_le hlog with hlt | heq
  · have h1 := (roundToPrecision_pos_bounds p hp x hx).2
    have h2 := (roundToPrecision_pos_bounds p hp y hy).1
    have h3 : (2 : α) ^ (Int.log 2 x + 1) ≤ 2 ^ Int.log 2 y :=
      zpow_le_zpow_right₀ (by norm_num) (by omega)
    linarith
  · have hpe := two_zpow_pos (α := α) (Int.log 2 x - ((p : ℤ) - 1))
    simp only [roundToPrecision, hx.ne.symm, hy.ne.symm, if_false, abs_of_pos hx,
      abs_of_pos hy, ← heq]
    apply mul_le_mul_of_nonneg_right _ hpe.le
    have := roundHalfEven_mono _ _ (div_le_div_of_nonneg_right hxy hpe.le)
    exact_mod_cast this

theorem roundToPrecision_mono (p : ℕ) (hp : 1 ≤ p) (x y : α) (hxy : x ≤ y) :
    roundToPrecision p x ≤ roundToPrecision p y := by
  rcases lt_trichotomy x 0 with hx | hx | hx
  · rcases lt_or_le y 0 with hy | hy
    · have h := roundToPrecision_mono_pos p hp (-y) (-x) (neg_pos.mpr hy) (by linarith)
      rw [roundToPrecision_neg, roundToPrecision_neg] at h
      linarith
    · exact le_trans (roundToPrecision_nonpos p hp x hx.le) (roundToPrecision_nonneg p hp y hy)
  · rw [hx, roundToPrecision_zero]
    exact roundToPrecision_nonneg p hp y (by rw [← hx]; exact hxy)
  · exact roundToPrecision_mono_pos p hp x y hx hxy

theorem roundToPrecision_idem_pos (p : ℕ) (hp : 1 ≤ p) (x : α) (hx : 0 < x) :
    roundToPrecision p (roundToPrecision p x) = roundToPrecision p x := by
  obtain ⟨hb1, hb2⟩ := roundToPrecision_pos_bounds p hp x hx
  have h2 : (2 : α) ≠ 0 := by norm_num
  have hpe := two_zpow_pos (α := α) (Int.log 2 x - ((p : ℤ) - 1))
  have hform : roundToPrecision p x
      = (roundHalfEven (x / 2 ^ (Int.log 2 x - ((p : ℤ) - 1))) : α)
        * 2 ^ (Int.log 2 x - ((p : ℤ) - 1)) := by
    simp only [roundToPrecision, hx.ne.symm, if_false, abs_of_pos hx]
  generalize roundHalfEven (x / 2 ^ (Int.log 2 x - ((p : ℤ) - 1))) = m at hform
  rw [hform] at hb1 hb2 ⊢
  have hsplit1 : (2 : α) ^ (Int.log 2 x + 1) = 2 ^ p * 2 ^ (Int.log 2 x - ((p : ℤ) - 1)) := by
    rw [← zpow_natCast, ← zpow_add₀ h2]
    congr 1
    ring
  rw [hsplit1] at hb2
  have hm2 : m ≤ 2 ^ p := by
    have : (m : α) ≤ 2 ^ p := le_of_mul_le_mul_right hb2 hpe
    exact_mod_cast this
  have hm0 : 0 < m := by
    have : (0 : α) < (m : α) * 2 ^ (Int.log 2 x - ((p : ℤ) - 1)) :=
      lt_of_lt_of_le (two_zpow_pos _) hb1
    have : (0 : α) < (m : α) := pos_of_mul_pos_left this hpe.le
    exact_mod_cast this
  rcases lt_or_eq_of_le hm2 with hlt | heq
  · exact roundToPrecision_of_int_mul_zpow p m _ (by rw [abs_of_pos hm0]; exact hlt)
  · have h1 : (m : α) * 2 ^ (Int.log 2 x - ((p : ℤ) - 1))
        = ((1 : ℤ) : α) * 2 ^ ((p : ℤ) + (Int.log 2 x - ((p : ℤ) - 1))) := by
      rw [heq, zpow_add₀ h2, zpow_natCast]
      push_cast
      ring
    rw [h1]
    apply roundToPrecision_of_int_mul_zpow
    have : (2 : ℤ) ≤ 2 ^ p := by
      calc (2 : ℤ) = 2 ^ 1 := by norm_num
        _ ≤ 2 ^ p := pow_le_pow_right₀ (by norm_num) hp
    simp only [abs_one]
    omega

theorem roundToPrecision_idem (p : ℕ) (hp : 1 ≤ p) (x : α) :
    roundToPrecision p (roundToPrecision p x) = roundToPrecision p x := by
  rcases lt_trichotomy x 0 with hx | hx | hx
  · have h := roundToPrecision_idem_pos p hp (-x) (neg_pos.mpr hx)
    rw [roundToPrecision_neg, roundToPrecision_neg] at h
    exact neg_injective h
  · rw [hx, roundToPrecision_zero, roundToPrecision_zero]
  · exact roundToPrecision_idem_pos p hp x hx

/-- Relative error of one rounding: at most `2 ^ (-p)` times the magnitude. -/
theorem roundToPrecision_abs_sub_le (p : ℕ) (x : α) :
    |roundToPrecision p x - x| ≤ (2 : α) ^ (-(p : ℤ)) * |x| := by
  by_cases hx : x = 0
  · simp [hx, roundToPrecision_zero]
  · have h2 : (2 : α) ≠ 0 := by norm_num
    have hL := two_zpow_log_le _ (abs_pos.mpr hx)
    have hpe := two_zpow_pos (α := α) (Int.log 2 |x| - ((p : ℤ) - 1))
    have hr := roundHalfEven_abs_sub_le (x / 2 ^ (Int.log 2 |x| - ((p : ℤ) - 1)))
    have hdiff : roundToPrecision p x - x
        = ((roundHalfEven (x / 2 ^ (Int.log 2 |x| - ((p : ℤ) - 1))) : α)
            - x / 2 ^ (Int.log 2 |x| - ((p : ℤ) - 1)))
          * 2 ^ (Int.log 2 |x| - ((p : ℤ) - 1)) := by
      simp only [roundToPrecision, hx, if_false]
      field_simp
    have hhalf : (1 / 2 : α) * 2 ^ (Int.log 2 |x| - ((p : ℤ) - 1))
        = 2 ^ (-(p : ℤ)) * 2 ^ Int.log 2 |x| := by
      rw [← zpow_add₀ h2]
      have : -(p : ℤ) + Int.log 2 |x| = -1 + (Int.log 2 |x| - ((p : ℤ) - 1)) := by ring
      rw [this, zpow_add₀ h2]
      norm_num
    rw [hdiff, abs_mul, abs_of_pos hpe]
    calc _ ≤ (1 / 2 : α) * 2 ^ (Int.log 2 |x| - ((p : ℤ) - 1)) :=
          mul_le_mul_of_nonneg_right hr hpe.le
      _ = 2 ^ (-(p : ℤ)) * 2 ^ Int.log 2 |x| := hhalf
      _ ≤ 2 ^ (-(p : ℤ)) * |x| := mul_le_mul_of_nonneg_left hL (two_zpow_pos _).le

theorem roundToPrecision_intCast (p : ℕ) (n : ℤ) (hn : |n| < 2 ^ p) :
    roundToPrecision p (n : α) = n := by
  have h := roundToPrecision_of_int_mul_zpow (α := α) p n 0 hn
  simpa using h

theorem fround_zero : fround (0 : α) = 0 :=
  roundToPrecision_zero 24

theorem binary64_zero : binary64 (0 : α) = 0 :=
  roundToPrecision_zero 53

theorem binary64_one : binary64 (1 : α) = 1 := by
  have h := roundToPrecision_intCast (α := α) 53 1 (by norm_num)
  simpa [binary64] using h

theorem binary64_neg (x : α) : binary64 (-x) = -binary64 x :=
  roundToPrecision_neg 53 x

theorem binary64_idem (x : α) : binary64 (binary64 x) = binary64 x :=
  roundToPrecision_idem 53 (by norm_num) x

theorem binary64_mono (x y : α) (h : x ≤ y) : binary64 x ≤ binary64 y :=
  roundToPrecision_mono 53 (by norm_num) x y h

theorem binary64_pos (x : α) (h : 0 < x) : 0 < binary64 x :=
  roundToPrecision_pos 53 (by norm_num) x h

theorem binary64_abs_sub_le (x : α) :
    |binary64 x - x| ≤ (2 : α) ^ (-53 : ℤ) * |x| :=
  roundToPrecision_abs_sub_le 53 x

end Rounding

/-! ## Retargeting -/

omit [LinearOrderedField α] in
theorem typedArraySet_same_length (array source : List α)
    (h : array.length = source.length) : typedArraySet array source = some source := by
  simp [typedArraySet, h]

theorem snapshot_of_gt (threshold : α) (ps : ParticleSystem α)
    (hlen : ps.position.length = ps.targetPosition.length) (h : threshold < ps.uMix) :
    snapshot threshold ps
      = .normal { ps with position := ps.targetPosition, uMix := 0 } := by
  simp [snapshot, h, typedArraySet_same_length _ _ hlen]

theorem snapshot_of_le (threshold : α) (ps : ParticleSystem α) (h : ps.uMix ≤ threshold) :
    snapshot threshold ps = .normal ps := by
  simp [snapshot, not_lt.mpr h]

/-- The loop of `SceneManager.setShape` touches the target array only: position and mix
factor after the call are those left by the snapshot. -/
theorem SceneManager.setShape_state [FloorRing α] (M : JSMath α) (type : String) (extraData : ExtraData α)
    (pSystem ps1 : ParticleSystem α) (k : ℕ) (h : snapshot 0.5 pSystem = .normal ps1) :
    (SceneManager.setShape M type extraData pSystem k).state.1.position = ps1.position ∧
    (SceneManager.setShape M type extraData pSystem k).state.1.uMix = ps1.uMix ∧
    (SceneManager.setShape M type extraData pSystem k).state.1.count = ps1.count := by
  unfold SceneManager.setShape
  rw [h]
  dsimp only
  split <;> simp [Completion.state]

/-- The loop of `ParticleSystem.setTargetShape` touches the target array only. -/
theorem ParticleSystem.setTargetShape_state [FloorRing α] (M : JSMath α) (shapeType : String)
    (data : ExtraData α) (ps ps1 : ParticleSystem α) (k : ℕ)
    (h : snapshot 0.9 ps = .normal ps1) :
    (ParticleSystem.setTargetShape M shapeType data ps k).state.1.position = ps1.position ∧
    (ParticleSystem.setTargetShape M shapeType data ps k).state.1.uMix = ps1.uMix ∧
    (ParticleSystem.setTargetShape M shapeType data ps k).state.1.count = ps1.count := by
  unfold ParticleSystem.setTargetShape
  rw [h]
  dsimp only
  split <;> simp [Completion.state]

/-- C1. Retarget snapshot: on a buffer whose position and target arrays have the same
length, whatever the shape type, the extra data and the way the call completes, a call of
`SceneManager.setShape` with `uMix > 0.5` and a call of `ParticleSystem.setTargetShape`
with `uMix > 0.9` leave the position array equal to the target array as it was before the
call and leave `uMix` equal to 0. -/
theorem retarget_snapshot [FloorRing α] (M : JSMath α) (type : String) (extraData : ExtraData α)
    (ps : ParticleSystem α) (k : ℕ)
    (hlen : ps.position.length = ps.targetPosition.length) :
    (0.5 < ps.uMix →
      (SceneManager.setShape M type extraData ps k).state.1.position = ps.targetPosition ∧
      (SceneManager.setShape M type extraData ps k).state.1.uMix = 0) ∧
    (0.9 < ps.uMix →
      (ParticleSystem.setTargetShape M type extraData ps k).state.1.position
        = ps.targetPosition ∧
      (ParticleSystem.setTargetShape M type extraData ps k).state.1.uMix = 0) := by
  constructor
  · intro h
    have hs := SceneManager.setShape_state M type extraData ps _ k (snapshot_of_gt 0.5 ps hlen h)
    exact ⟨hs.1, hs.2.1⟩
  · intro h
    have hs := ParticleSystem.setTargetShape_state M type extraData ps _ k
      (snapshot_of_gt 0.9 ps hlen h)
    exact ⟨hs.1, hs.2.1⟩

/-- Instance of C1: one particle at the origin with target `(1, 2, 3)` and `uMix = 1`,
retargeted to the helix by either setter. -/
theorem retarget_snapshot_witness :
    ([0, 0, 0] : List ℝ).length = ([1, 2, 3] : List ℝ).length ∧ (0.5 : ℝ) < 1 ∧
    (SceneManager.setShape ⟨Real.pi, Real.cos, Real.sin, Real.arccos, fun x y => x ^ y,
        fun _ => 0, 0⟩ "DNA" ⟨none⟩ ⟨1, [0, 0, 0], [1, 2, 3], (1 : ℝ), 1⟩ 0).state.1.position
      = [1, 2, 3] ∧
    (SceneManager.setShape ⟨Real.pi, Real.cos, Real.sin, Real.arccos, fun x y => x ^ y,
        fun _ => 0, 0⟩ "DNA" ⟨none⟩ ⟨1, [0, 0, 0], [1, 2, 3], (1 : ℝ), 1⟩ 0).state.1.uMix
      = 0 ∧
    (0.9 : ℝ) < 1 ∧
    (ParticleSystem.setTargetShape ⟨Real.pi, Real.cos, Real.sin, Real.arccos,
        fun x y => x ^ y, fun _ => 0, 0⟩ "DNA" ⟨none⟩
        ⟨1, [0, 0, 0], [1, 2, 3], (1 : ℝ), 1⟩ 0).state.1.position
      = [1, 2, 3] ∧
    (ParticleSystem.setTargetShape ⟨Real.pi, Real.cos, Real.sin, Real.arccos,
        fun x y => x ^ y, fun _ => 0, 0⟩ "DNA" ⟨none⟩
        ⟨1, [0, 0, 0], [1, 2, 3], (1 : ℝ), 1⟩ 0).state.1.uMix
      = 0 :=
  have h := retarget_snapshot (⟨Real.pi, Real.cos, Real.sin, Real.arccos, fun x y => x ^ y,
    fun _ => 0, 0⟩ : JSMath ℝ) "DNA" ⟨none⟩ ⟨1, [0, 0, 0], [1, 2, 3], (1 : ℝ), 1⟩ 0 rfl
  ⟨rfl, by norm_num, (h.1 (by norm_num)).1, (h.1 (by norm_num)).2, by norm_num,
    (h.2 (by norm_num)).1, (h.2 (by norm_num)).2⟩

/-- Rendered position after `SceneManager.setShape` took the snapshot: the old target. -/
theorem SceneManager.setShape_rendered_of_gt [FloorRing α] (M : JSMath α) (type : String)
    (extraData : ExtraData α) (ps : ParticleSystem α) (k i c : ℕ)
    (hlen : ps.position.length = ps.targetPosition.length) (h : 0.5 < ps.uMix) :
    (SceneManager.setShape M type extraData ps k).state.1.rendered i c
      = ps.targetPosition.getD (i * 3 + c) 0 := by
  have hs := SceneManager.setShape_state M type extraData ps _ k (snapshot_of_gt 0.5 ps hlen h)
  simp only [ParticleSystem.rendered, hs.1, hs.2.1, mix]
  ring

/-- C2, evaluated on the code: one particle at the origin with target `(1, 1, 1)` and
`uMix = 0.75` is rendered at `x = 0.75` before `SceneManager.setShape` and at `x = 1` after
it, whatever the shape: the rendered position jumps across the retarget. -/
theorem retarget_jump (M : JSMath ℚ) (type : String) (extraData : ExtraData ℚ) (k : ℕ) :
    (0.5 : ℚ) < 0.75 ∧
    ParticleSystem.rendered ⟨1, [0, 0, 0], [1, 1, 1], (0.75 : ℚ), 1⟩ 0 0 = 0.75 ∧
    (SceneManager.setShape M type extraData
      ⟨1, [0, 0, 0], [1, 1, 1], (0.75 : ℚ), 1⟩ k).state.1.rendered 0 0 = 1 := by
  refine ⟨by norm_num, by norm_num [ParticleSystem.rendered, mix], ?_⟩
  rw [SceneManager.setShape_rendered_of_gt M type extraData _ k 0 0 rfl (by norm_num)]
  simp

/-- Continuity across the retarget holds when the morph is complete: with `uMix = 1` the
rendered position of every coordinate is the same before and after
`SceneManager.setShape`. -/
theorem SceneManager.setShape_continuous_of_mix_one [FloorRing α] (M : JSMath α) (type : String)
    (extraData : ExtraData α) (ps : ParticleSystem α) (k i c : ℕ)
    (hlen : ps.position.length = ps.targetPosition.length) (h : ps.uMix = 1) :
    (SceneManager.setShape M type extraData ps k).state.1.rendered i c
      = ps.rendered i c := by
  rw [SceneManager.setShape_rendered_of_gt M type extraData ps k i c hlen (by rw [h]; norm_num)]
  simp [ParticleSystem.rendered, mix, h]

/-! ## The mix animation -/

theorem MixLoop.p_le_one (L : MixLoop α) (now : α) : L.p now ≤ 1 :=
  min_le_right _ _

theorem MixLoop.p_nonneg (L : MixLoop α) (now : α) (hd : 0 < L.duration)
    (h : L.startTime ≤ now) : 0 ≤ L.p now := by
  unfold MixLoop.p
  have h1 : 0 ≤ (now - L.startTime) / (L.duration * 1000) :=
    div_nonneg (sub_nonneg.mpr h) (by positivity)
  exact le_min h1 zero_le_one

theorem MixLoop.p_mono (L : MixLoop α) (now1 now2 : α) (hd : 0 < L.duration)
    (h : now1 ≤ now2) : L.p now1 ≤ L.p now2 := by
  unfold MixLoop.p
  have hpos : (0 : α) < L.duration * 1000 := by positivity
  exact min_le_min (div_le_div_of_nonneg_right (by linarith) hpos.le) le_rfl

theorem MixLoop.p_start (L : MixLoop α) : L.p L.startTime = 0 := by
  simp [MixLoop.p]

theorem MixLoop.p_done (L : MixLoop α) (now : α) (hd : 0 < L.duration)
    (h : L.duration * 1000 ≤ now - L.startTime) : L.p now = 1 := by
  unfold MixLoop.p
  have hpos : (0 : α) < L.duration * 1000 := by positivity
  exact min_eq_right ((one_le_div hpos).mpr h)

theorem MixLoop.ease_mono (L : MixLoop α) (now1 now2 : α) (hd : 0 < L.duration)
    (h : now1 ≤ now2) : L.ease now1 ≤ L.ease now2 := by
  unfold MixLoop.ease
  have h1 := L.p_mono now1 now2 hd h
  have h2 := L.p_le_one now2
  have h3 : (1 - L.p now2) ^ 3 ≤ (1 - L.p now1) ^ 3 :=
    pow_le_pow_left₀ (by linarith) (by linarith) 3
  linarith

theorem MixLoop.ease_start (L : MixLoop α) : L.ease L.startTime = 0 := by
  simp [MixLoop.ease, L.p_start]

theorem MixLoop.ease_done (L : MixLoop α) (now : α) (hd : 0 < L.duration)
    (h : L.duration * 1000 ≤ now - L.startTime) : L.ease now = 1 := by
  simp [MixLoop.ease, L.p_done now hd h]

theorem MixLoop.ease_nonneg (L : MixLoop α) (now : α) (hd : 0 < L.duration)
    (h : L.startTime ≤ now) : 0 ≤ L.ease now := by
  have := L.ease_mono L.startTime now hd h
  rwa [L.ease_start] at this

theorem MixLoop.ease_le_one (L : MixLoop α) (now : α) (hd : 0 < L.duration) :
    L.ease now ≤ 1 := by
  have h1 := L.ease_mono now (max now (L.startTime + L.duration * 1000)) hd (le_max_left _ _)
  have h2 := L.ease_done (max now (L.startTime + L.duration * 1000)) hd
    (by linarith [le_max_right now (L.startTime + L.duration * 1000)])
  rwa [h2] at h1

/-- The first frame of `animateMix`, at elapsed time 0, writes back the value `uMix` held
before the call. -/
theorem SceneManager.animateMix_first_frame (start end_ duration startTime : α)
    (ps : ParticleSystem α) :
    (SceneManager.animateMix start end_ duration startTime startTime ps).2.1.uMix
      = ps.uMix := by
  simp [SceneManager.animateMix, MixLoop.frame, MixLoop.value, MixLoop.ease, MixLoop.p]

/-- C4, evaluated on the code: `animateMix(0, 1, 3.0)` called while `uMix = 0.25` writes
`0.25`, the prior value and not the argument `start = 0`, in its frame at elapsed time 0. -/
theorem morph_start_unread :
    (SceneManager.animateMix (0 : ℚ) 1 3 0 0 ⟨1, [0, 0, 0], [1, 1, 1], 0.25, 1⟩).2.1.uMix
      = 0.25 ∧
    (SceneManager.animateMix (0 : ℚ) 1 3 0 0 ⟨1, [0, 0, 0], [1, 1, 1], 0.25, 1⟩).2.1.uMix
      ≠ 0 := by
  rw [SceneManager.animateMix_first_frame]
  norm_num

theorem MixLoop.p_seconds (L : MixLoop α) (t : α) :
    L.p (L.startTime + t * 1000) = min (t / L.duration) 1 := by
  unfold MixLoop.p
  congr 1
  rw [add_sub_cancel_left, mul_div_mul_right _ _ (by norm_num : (1000 : α) ≠ 0)]

theorem MixLoop.value_between (L : MixLoop α) (now : α) (hd : 0 < L.duration)
    (h : L.startTime ≤ now) :
    min L.startVal L.end_ ≤ L.value now ∧ L.value now ≤ max L.startVal L.end_ := by
  have h0 := L.ease_nonneg now hd h
  have h1 := L.ease_le_one now hd
  unfold MixLoop.value
  rcases le_total L.startVal L.end_ with hse | hse
  · rw [min_eq_left hse, max_eq_right hse]
    constructor <;> nlinarith
  · rw [min_eq_right hse, max_eq_left hse]
    constructor <;> nlinarith

theorem MixLoop.value_mono (L : MixLoop α) (now1 now2 : α) (hd : 0 < L.duration)
    (h : now1 ≤ now2) :
    (L.startVal ≤ L.end_ → L.value now1 ≤ L.value now2) ∧
    (L.end_ ≤ L.startVal → L.value now2 ≤ L.value now1) := by
  have hm := L.ease_mono now1 now2 hd h
  unfold MixLoop.value
  constructor <;> intro hse <;> nlinarith

/-- C5. Mix factor invariant: let `L` be the loop of an `animateMix(start, e, d)` run with
`d > 0`, started at `startTime` while `uMix = s`, with `s` and `e` in `[0, 1]`. Every frame
writes `L.value now`; at `t ≥ 0` seconds after the start this is
`s + (e - s) * (1 - (1 - p)^3)` with `p = min (t / d) 1`; the eased factor is 0 where
`p = 0`, 1 where `p = 1` and non-decreasing in `t`; the written value lies in `[0, 1]`,
between `s` and `e`, and moves monotonically from `s` toward `e` as `t` grows. -/
theorem mix_invariant (start e d startTime now0 : α) (ps : ParticleSystem α) (L : MixLoop α)
    (hL : L = (SceneManager.animateMix start e d startTime now0 ps).1)
    (hd : 0 < d) (hs0 : 0 ≤ ps.uMix) (hs1 : ps.uMix ≤ 1) (he0 : 0 ≤ e) (he1 : e ≤ 1) :
    (∀ now ps1, (L.frame now ps1).1.uMix = L.value now) ∧
    (∀ t, 0 ≤ t → L.p (startTime + t * 1000) = min (t / d) 1 ∧
      L.value (startTime + t * 1000)
        = ps.uMix + (e - ps.uMix) * (1 - (1 - min (t / d) 1) ^ 3)) ∧
    (∀ now, L.p now = 0 → L.ease now = 0) ∧
    (∀ now, L.p now = 1 → L.ease now = 1) ∧
    (∀ t1 t2, 0 ≤ t1 → t1 ≤ t2 →
      L.ease (startTime + t1 * 1000) ≤ L.ease (startTime + t2 * 1000)) ∧
    (∀ t, 0 ≤ t → 0 ≤ L.value (startTime + t * 1000) ∧ L.value (startTime + t * 1000) ≤ 1 ∧
      min ps.uMix e ≤ L.value (startTime + t * 1000) ∧
      L.value (startTime + t * 1000) ≤ max ps.uMix e) ∧
    (∀ t1 t2, 0 ≤ t1 → t1 ≤ t2 →
      (ps.uMix ≤ e →
        L.value (startTime + t1 * 1000) ≤ L.value (startTime + t2 * 1000)) ∧
      (e ≤ ps.uMix →
        L.value (startTime + t2 * 1000) ≤ L.value (startTime + t1 * 1000))) := by
  have hst : L.startTime = startTime := by rw [hL]; rfl
  have hdu : L.duration = d := by rw [hL]; rfl
  have hsv : L.startVal = ps.uMix := by rw [hL]; rfl
  have hen : L.end_ = e := by rw [hL]; rfl
  have hd1 : 0 < L.duration := by rw [hdu]; exact hd
  refine ⟨fun _ _ => rfl, ?_, ?_, ?_, ?_, ?_, ?_⟩
  · intro t _
    have hp := L.p_seconds t
    rw [hst, hdu] at hp
    refine ⟨hp, ?_⟩
    simp only [MixLoop.value, MixLoop.ease, hp, hsv, hen]
  · intro now h0
    simp [MixLoop.ease, h0]
  · intro now h1
    simp [MixLoop.ease, h1]
  · intro t1 t2 _ h12
    exact L.ease_mono _ _ hd1 (by linarith)
  · intro t ht
    have hb := L.value_between (startTime + t * 1000) hd1 (by rw [hst]; linarith)
    rw [hsv, hen] at hb
    exact ⟨le_trans (le_min hs0 he0) hb.1, le_trans hb.2 (max_le hs1 he1), hb.1, hb.2⟩
  · intro t1 t2 _ h12
    have hm := L.value_mono (startTime + t1 * 1000) (startTime + t2 * 1000) hd1 (by linarith)
    rw [hsv, hen] at hm
    exact hm

/-- Instance of C5: the loop of `animateMix(0, 1, 3.0)` started at time 0 with
`uMix = 0.25`; one second later the frame writes `0.25 + 0.75 * (1 - (2/3)^3)`. -/
theorem mix_invariant_witness :
    (0 : ℚ) < 3 ∧ (0 : ℚ) ≤ 0.25 ∧ (0.25 : ℚ) ≤ 1 ∧ (0 : ℚ) ≤ 1 ∧ (1 : ℚ) ≤ 1 ∧
    MixLoop.value (SceneManager.animateMix (0 : ℚ) 1 3 0 0
      ⟨1, [0, 0, 0], [1, 1, 1], 0.25, 1⟩).1 (0 + 1 * 1000) = 0.25 + 0.75 * (19 / 27) ∧
    0 ≤ MixLoop.value (SceneManager.animateMix (0 : ℚ) 1 3 0 0
      ⟨1, [0, 0, 0], [1, 1, 1], 0.25, 1⟩).1 (0 + 1 * 1000) ∧
    MixLoop.value (SceneManager.animateMix (0 : ℚ) 1 3 0 0
      ⟨1, [0, 0, 0], [1, 1, 1], 0.25, 1⟩).1 (0 + 1 * 1000) ≤ 1 := by
  have h := mix_invariant (0 : ℚ) 1 3 0 0 ⟨1, [0, 0, 0], [1, 1, 1], 0.25, 1⟩ _ rfl
    (by norm_num) (by norm_num) (by norm_num) (by norm_num) (by norm_num)
  refine ⟨by norm_num, by norm_num, by norm_num, by norm_num, by norm_num, ?_,
    (h.2.2.2.2.2.1 1 (by norm_num)).1, (h.2.2.2.2.2.1 1 (by norm_num)).2.1⟩
  rw [(h.2.1 1 (by norm_num)).2]
  norm_num

/-! ## The mix animation in binary64 -/

theorem MixLoop.p64_done [FloorRing α] (L : MixLoop α) (now : α) (hd : 0 < L.duration)
    (h : L.duration * 1000 ≤ now - L.startTime) : L.p64 now = 1 := by
  unfold MixLoop.p64
  have hy : 0 < binary64 (L.duration * 1000) := binary64_pos _ (by positivity)
  have hxy := binary64_mono _ _ h
  have h1 : (1 : α) ≤ binary64 (now - L.startTime) / binary64 (L.duration * 1000) :=
    (one_le_div hy).mpr hxy
  have h2 := binary64_mono _ _ h1
  rw [binary64_one] at h2
  exact min_eq_right h2

theorem MixLoop.ease64_done [FloorRing α] (M : JSMath α) (L : MixLoop α) (now : α)
    (hd : 0 < L.duration) (h : L.duration * 1000 ≤ now - L.startTime)
    (hpow : M.pow 0 3 = 0) : L.ease64 M now = 1 := by
  unfold MixLoop.ease64
  rw [L.p64_done now hd h, sub_self, binary64_zero, hpow, sub_zero, binary64_one]

/-- A frame of `animateMix` that runs when `now - startTime ≥ duration * 1000` writes the
double sum of `startVal` and the double difference `end - startVal`, and does not request
another frame. -/
theorem MixLoop.frame64_done [FloorRing α] (M : JSMath α) (L : MixLoop α) (now : α)
    (ps : ParticleSystem α) (hd : 0 < L.duration)
    (h : L.duration * 1000 ≤ now - L.startTime) (hpow : M.pow 0 3 = 0) :
    (L.frame64 M now ps).1.uMix = binary64 (L.startVal + binary64 (L.end_ - L.startVal)) ∧
    (L.frame64 M now ps).2 = false := by
  constructor
  · simp only [MixLoop.frame64, MixLoop.value64, L.ease64_done M now hd h hpow, mul_one,
      binary64_idem]
  · simp [MixLoop.frame64, L.p64_done now hd h]

theorem binary64_seven_tenths : binary64 (0.7 : ℝ) = 6305039478318694 / 2 ^ 53 := by
  have h := roundToPrecision_eq_of_close 53 (0.7 : ℝ) (-53) 6305039478318694 (by norm_num)
    (by rw [abs_of_pos (by norm_num)]; norm_num)
    (by rw [abs_of_pos (by norm_num)]; norm_num)
    (by rw [abs_lt]; norm_num)
  rw [binary64, h]
  norm_num

theorem binary64_one_tenth : binary64 (0.1 : ℝ) = 7205759403792794 / 2 ^ 56 := by
  have h := roundToPrecision_eq_of_close 53 (0.1 : ℝ) (-56) 7205759403792794 (by norm_num)
    (by rw [abs_of_pos (by norm_num)]; norm_num)
    (by rw [abs_of_pos (by norm_num)]; norm_num)
    (by rw [abs_lt]; norm_num)
  rw [binary64, h]
  norm_num

/-- C3 fails on the code: with `uMix = 0.7`, the frame of `animateMix(0, 0.1, 1.0)` at
`now - startTime = 1000` writes the double `7205759403792792 / 2 ^ 56
= 0.09999999999999998`, while the double `0.1` is `7205759403792794 / 2 ^ 56`. -/
theorem morph_completion_rounds :
    (0 : ℝ) < 1 ∧ (1 : ℝ) * 1000 ≤ 1000 - 0 ∧
    binary64 (0.1 : ℝ) = 7205759403792794 / 2 ^ 56 ∧
    (((SceneManager.animateMix (0 : ℝ) (binary64 0.1) 1 0 0
        ⟨1, [0, 0, 0], [1, 1, 1], binary64 0.7, 1⟩).1).frame64
      ⟨Real.pi, Real.cos, Real.sin, Real.arccos, fun x y => x ^ y, fun _ => 0, 0⟩ 1000
      ⟨1, [0, 0, 0], [1, 1, 1], binary64 0.7, 1⟩).1.uMix = 7205759403792792 / 2 ^ 56 ∧
    (7205759403792792 / 2 ^ 56 : ℝ) ≠ 7205759403792794 / 2 ^ 56 := by
  have hd : binary64 ((7205759403792794 / 2 ^ 56 : ℝ) - 6305039478318694 / 2 ^ 53)
      = -5404319552844595 / 2 ^ 53 := by
    have h := roundToPrecision_eq_of_close 53
      ((7205759403792794 / 2 ^ 56 : ℝ) - 6305039478318694 / 2 ^ 53) (-53) (-5404319552844595)
      (by norm_num)
      (by rw [abs_of_neg (by norm_num)]; norm_num)
      (by rw [abs_of_neg (by norm_num)]; norm_num)
      (by rw [abs_lt]; norm_num)
    rw [binary64, h]
    norm_num
  have hv : binary64 ((6305039478318694 / 2 ^ 53 : ℝ) + -5404319552844595 / 2 ^ 53)
      = 7205759403792792 / 2 ^ 56 := by
    have h := roundToPrecision_of_int_mul_zpow (α := ℝ) 53 900719925474099 (-53) (by norm_num)
    have he : (6305039478318694 / 2 ^ 53 : ℝ) + -5404319552844595 / 2 ^ 53
        = ((900719925474099 : ℤ) : ℝ) * 2 ^ (-53 : ℤ) := by norm_num
    rw [binary64, he, h]
    norm_num
  have hf := (MixLoop.frame64_done (⟨Real.pi, Real.cos, Real.sin, Real.arccos,
    fun x y => x ^ y, fun _ => 0, 0⟩ : JSMath ℝ)
    (SceneManager.animateMix (0 : ℝ) (binary64 0.1) 1 0 0
      ⟨1, [0, 0, 0], [1, 1, 1], binary64 0.7, 1⟩).1 1000
    ⟨1, [0, 0, 0], [1, 1, 1], binary64 0.7, 1⟩
    (by norm_num [SceneManager.animateMix]) (by norm_num [SceneManager.animateMix])
    (by norm_num)).1
  refine ⟨by norm_num, by norm_num, binary64_one_tenth, ?_, by norm_num⟩
  rw [hf]
  simp only [SceneManager.animateMix]
  rw [binary64_seven_tenths, binary64_one_tenth, hd, hv]

/-- C3 as amended: for `animateMix(start, end, duration)` with `duration > 0`, called on any
particle system (any prior `uMix`), a frame of its loop that runs when
`now - startTime ≥ duration * 1000` does not request another frame and writes to `uMix` the
double sum of the prior `uMix` and the double difference `end - uMix`. This is `end` exactly
when the prior `uMix` is 0 (and `end` is a double) or when `end` is 0 (and the prior `uMix`
is a double); when both lie in `[0, 1]` it is within `2 ^ (-51)` of `end`. -/
theorem morph_completion [FloorRing α] (M : JSMath α)
    (start end_ duration startTime now0 now : α) (ps ps1 : ParticleSystem α)
    (hd : 0 < duration) (h : duration * 1000 ≤ now - startTime) (hpow : M.pow 0 3 = 0) :
    (((SceneManager.animateMix start end_ duration startTime now0 ps).1).frame64 M now
        ps1).1.uMix = binary64 (ps.uMix + binary64 (end_ - ps.uMix)) ∧
    (((SceneManager.animateMix start end_ duration startTime now0 ps).1).frame64 M now
        ps1).2 = false ∧
    (ps.uMix = 0 → binary64 end_ = end_ →
      (((SceneManager.animateMix start end_ duration startTime now0 ps).1).frame64 M now
        ps1).1.uMix = end_) ∧
    (end_ = 0 → binary64 ps.uMix = ps.uMix →
      (((SceneManager.animateMix start end_ duration startTime now0 ps).1).frame64 M now
        ps1).1.uMix = end_) ∧
    (0 ≤ ps.uMix → ps.uMix ≤ 1 → 0 ≤ end_ → end_ ≤ 1 →
      |(((SceneManager.animateMix start end_ duration startTime now0 ps).1).frame64 M now
        ps1).1.uMix - end_| ≤ (2 : α) ^ (-51 : ℤ)) := by
  obtain ⟨hw, hs⟩ := MixLoop.frame64_done M
    (SceneManager.animateMix start end_ duration startTime now0 ps).1 now ps1 hd h hpow
  have hw1 : (((SceneManager.animateMix start end_ duration startTime now0 ps).1).frame64 M now
      ps1).1.uMix = binary64 (ps.uMix + binary64 (end_ - ps.uMix)) := hw
  refine ⟨hw1, hs, ?_, ?_, ?_⟩
  · intro h0 he
    rw [hw1, h0, sub_zero, zero_add, he, he]
  · intro h0 hu
    rw [hw1, h0, zero_sub, binary64_neg, hu, add_neg_cancel, binary64_zero]
  · intro hs0 hs1 he0 he1
    rw [hw1]
    have h1 := binary64_abs_sub_le (end_ - ps.uMix)
    have h2 := binary64_abs_sub_le (ps.uMix + binary64 (end_ - ps.uMix))
    have hpw : (2 : α) ^ (-53 : ℤ) = 1 / 2 ^ 53 := by norm_num
    have hpw1 : (2 : α) ^ (-51 : ℤ) = 1 / 2 ^ 51 := by norm_num
    rw [hpw] at h1 h2
    rw [hpw1]
    have hes : |end_ - ps.uMix| ≤ 1 := by rw [abs_le]; constructor <;> linarith
    have hd1 : |binary64 (end_ - ps.uMix) - (end_ - ps.uMix)| ≤ 1 / 2 ^ 53 := by
      calc _ ≤ 1 / 2 ^ 53 * |end_ - ps.uMix| := h1
        _ ≤ 1 / 2 ^ 53 * 1 := mul_le_mul_of_nonneg_left hes (by positivity)
        _ = 1 / 2 ^ 53 := mul_one _
    rw [abs_le] at hd1
    have hsum : |ps.uMix + binary64 (end_ - ps.uMix)| ≤ 2 := by
      rw [abs_le]
      constructor <;> norm_num at hd1 ⊢ <;> linarith
    have hd2 : |binary64 (ps.uMix + binary64 (end_ - ps.uMix))
        - (ps.uMix + binary64 (end_ - ps.uMix))| ≤ 1 / 2 ^ 53 * 2 :=
      le_trans h2 (mul_le_mul_of_nonneg_left hsum (by positivity))
    rw [abs_le] at hd2 ⊢
    constructor <;> norm_num at hd1 hd2 ⊢ <;> linarith

/-- Instance of C3 as amended: `animateMix(0, 1, 3.0)` started at time 0 with `uMix = 0`;
the frame at 3000 ms writes 1 and stops. -/
theorem morph_completion_witness :
    (0 : ℝ) < 3 ∧ (3 : ℝ) * 1000 ≤ 3000 - 0 ∧ ((0 : ℝ) ^ (3 : ℝ) = 0) ∧
    (((SceneManager.animateMix (0 : ℝ) 1 3 0 0 ⟨1, [0, 0, 0], [1, 1, 1], 0, 1⟩).1).frame64
      ⟨Real.pi, Real.cos, Real.sin, Real.arccos, fun x y => x ^ y, fun _ => 0, 0⟩ 3000
      ⟨1, [0, 0, 0], [1, 1, 1], 0.5, 1⟩).1.uMix = 1 ∧
    (((SceneManager.animateMix (0 : ℝ) 1 3 0 0 ⟨1, [0, 0, 0], [1, 1, 1], 0, 1⟩).1).frame64
      ⟨Real.pi, Real.cos, Real.sin, Real.arccos, fun x y => x ^ y, fun _ => 0, 0⟩ 3000
      ⟨1, [0, 0, 0], [1, 1, 1], 0.5, 1⟩).2 = false := by
  have hp : (0 : ℝ) ^ (3 : ℝ) = 0 := Real.zero_rpow (by norm_num)
  have h := morph_completion (⟨Real.pi, Real.cos, Real.sin, Real.arccos, fun x y => x ^ y,
    fun _ => 0, 0⟩ : JSMath ℝ) (0 : ℝ) 1 3 0 0 3000 ⟨1, [0, 0, 0], [1, 1, 1], 0, 1⟩
    ⟨1, [0, 0, 0], [1, 1, 1], 0.5, 1⟩ (by norm_num) (by norm_num) hp
  exact ⟨by norm_num, by norm_num, hp, h.2.2.1 rfl binary64_one, h.2.1⟩

/-! ## The scene sequence -/

/-- Every invocation of `nextScene` increments the scene counter: no state makes it
ignore the call. -/
theorem SceneManager.nextScene_currentScene (sm : SceneManager) :
    sm.nextScene.currentScene = sm.currentScene + 1 := by
  unfold SceneManager.nextScene
  dsimp only
  split <;> split <;> simp_all [SceneManager.updateText, SceneManager.setTimeout]

/-- C6 fails on the code: from the state left by the constructor (scene 0), two clicks
handled before any timer fires leave `currentScene = 2`, not 1, and it is still 2 when both
text fades have completed. -/
theorem double_trigger_advances_twice :
    SceneManager.new.currentScene = 0 ∧
    SceneManager.new.onClick.onClick.currentScene = 2 ∧
    SceneManager.new.onClick.onClick.currentScene ≠ 1 ∧
    (SceneManager.run 2 SceneManager.new.onClick.onClick).currentScene = 2 := by
  decide

/-- C6 as amended: `nextScene` has no guard, every invocation increments `currentScene`
by one. From scene 0, two invocations made before any timer fires leave `currentScene = 2`
and two pending text fades; the first invocation hides the button; when both fades have
completed the helix transition `setShape('DNA')` has been performed exactly once, followed
by the network transition `setShape('CELL')`; and when no timer is left every scene has been
set once, in order, with `currentScene = 5`. -/
theorem nextScene_unguarded :
    (∀ sm : SceneManager, sm.nextScene.currentScene = sm.currentScene + 1) ∧
    SceneManager.new.nextScene.nextScene.currentScene = 2 ∧
    SceneManager.new.nextScene.btnDisplayNone = true ∧
    SceneManager.new.nextScene.nextScene.timers
      = [(1000, .textFaded "Encoded with brilliance." 1),
         (1000, .textFaded "Driven by curiosity." 2)] ∧
    shapesSet (SceneManager.run 2 SceneManager.new.nextScene.nextScene).calls
      = ["CELL", "DNA", "CELL"] ∧
    (shapesSet (SceneManager.run 2 SceneManager.new.nextScene.nextScene).calls).count "DNA"
      = 1 ∧
    shapesSet (SceneManager.run 7 SceneManager.new.nextScene.nextScene).calls
      = ["CELL", "DNA", "CELL", "GALAXY", "TEXT"] ∧
    (SceneManager.run 7 SceneManager.new.nextScene.nextScene).timers = [] ∧
    (SceneManager.run 7 SceneManager.new.nextScene.nextScene).currentScene = 5 := by
  refine ⟨SceneManager.nextScene_currentScene, ?_⟩
  decide

/-- A single trigger plays the sequence as designed: the four scenes are set once each, in
order, and the counter stops at 4 with no timer left. -/
theorem single_trigger_sequence :
    shapesSet (SceneManager.run 7 SceneManager.new.onClick).calls
      = ["CELL", "DNA", "CELL", "GALAXY", "TEXT"] ∧
    (SceneManager.run 7 SceneManager.new.onClick).timers = [] ∧
    (SceneManager.run 7 SceneManager.new.onClick).currentScene = 4 := by
  decide

/-! ## The target loop -/

theorem storePoint_length [FloorRing α] (array : List α) (i : ℕ) (p : Vec3 α) :
    (storePoint array i p).length = array.length := by
  simp [storePoint]

theorem storePoint_getElem?_lt [FloorRing α] (array : List α) (i m : ℕ) (p : Vec3 α)
    (h : m < i * 3) : (storePoint array i p)[m]? = array[m]? := by
  unfold storePoint
  rw [List.getElem?_set_ne (by omega), List.getElem?_set_ne (by omega),
    List.getElem?_set_ne (by omega)]

theorem storePoint_getElem? [FloorRing α] (array : List α) (i : ℕ) (p : Vec3 α)
    (h : i * 3 + 2 < array.length) :
    (storePoint array i p)[i * 3]? = some (fround p.x) ∧
    (storePoint array i p)[i * 3 + 1]? = some (fround p.y) ∧
    (storePoint array i p)[i * 3 + 2]? = some (fround p.z) := by
  unfold storePoint
  refine ⟨?_, ?_, ?_⟩
  · rw [List.getElem?_set_ne (by omega), List.getElem?_set_ne (by omega),
      List.getElem?_set_self (by omega)]
  · rw [List.getElem?_set_ne (by omega), List.getElem?_set_self (by simp; omega)]
  · rw [List.getElem?_set_self (by simp; omega)]

/-- Loop rule for `SceneManager.setShape`. Let `Inv j k o` relate the index of the next
particle, the number of draws and the point objects, and let every iteration started in
`Inv` end without raising, in `Inv`, with a point satisfying `Q`. Then on an array that
holds the particles `i .. i + n - 1` the loop returns normally, in `Inv`, keeps the length
and the entries below `i * 3`, and stores at `j * 3, j * 3 + 1, j * 3 + 2` the float32
narrowing of a point satisfying `Q j`, for each of these particles. -/
theorem SceneManager.setShape.loop_invariant [FloorRing α] (M : JSMath α) (type : String)
    (extraData : ExtraData α) (count : ℕ) (Inv : ℕ → ℕ → List (Vec3 α) → Prop)
    (Q : ℕ → Vec3 α → Prop)
    (hstep : ∀ j k o, Inv j k o → ∃ p k1 o1,
      SceneManager.setShape.point M type extraData count j k o = .ok (p, k1, o1) ∧
      Inv (j + 1) k1 o1 ∧ Q j p) :
    ∀ (n i : ℕ) (array : List α) (k : ℕ) (o : List (Vec3 α)), Inv i k o →
      (i + n) * 3 ≤ array.length →
      ∃ arr k1 o1, SceneManager.setShape.loop M type extraData count n i array k o
          = .normal (arr, k1, o1) ∧
        Inv (i + n) k1 o1 ∧
        arr.length = array.length ∧
        (∀ m, m < i * 3 → arr[m]? = array[m]?) ∧
        (∀ j, i ≤ j → j < i + n → ∃ p, Q j p ∧
          arr[j * 3]? = some (fround p.x) ∧ arr[j * 3 + 1]? = some (fround p.y) ∧
          arr[j * 3 + 2]? = some (fround p.z)) := by
  intro n
  induction n with
  | zero =>
    intro i array k o hinv _
    exact ⟨array, k, o, rfl, hinv, rfl, fun _ _ => rfl, fun j h1 h2 => absurd h2 (by omega)⟩
  | succ n ih =>
    intro i array k o hinv hlen
    obtain ⟨q, kq, oq, hq, hinvq, hQ⟩ := hstep i k o hinv
    obtain ⟨arr, k1, o1, hrun, hinv1, hl, hlow, hset⟩ := ih (i + 1) (storePoint array i q) kq oq
      hinvq (by rw [storePoint_length]; omega)
    refine ⟨arr, k1, o1, ?_, ?_, ?_, ?_, ?_⟩
    · rw [SceneManager.setShape.loop, hq]
      exact hrun
    · rw [Nat.add_right_comm i 1 n, Nat.add_assoc i n 1] at hinv1
      exact hinv1
    · rw [hl, storePoint_length]
    · intro m hm
      rw [hlow m (by omega), storePoint_getElem?_lt _ _ _ _ hm]
    · intro j h1 h2
      rcases Nat.eq_or_lt_of_le h1 with h | h
      · subst h
        have hs := storePoint_getElem? array i q (by omega)
        refine ⟨q, hQ, ?_⟩
        rw [hlow (i * 3) (by omega), hlow (i * 3 + 1) (by omega),
          hlow (i * 3 + 2) (by omega)]
        exact hs
      · exact hset j (by omega) (by omega)

theorem snapshot_normal (ps : ParticleSystem α)
    (hlen : ps.position.length = ps.targetPosition.length) :
    ∃ ps1, snapshot 0.5 ps = .normal ps1 ∧ ps1.count = ps.count ∧
      ps1.targetPosition = ps.targetPosition := by
  rcases lt_or_le (0.5 : α) ps.uMix with h | h
  · exact ⟨_, snapshot_of_gt 0.5 ps hlen h, rfl, rfl⟩
  · exact ⟨_, snapshot_of_le 0.5 ps h, rfl, rfl⟩

/-- The rule of `SceneManager.setShape.loop_invariant` for the whole call: on a buffer whose
arrays hold `count` particles, when every iteration started in `Inv` ends without raising,
in `Inv`, with a point satisfying `Q`, the call returns and the target of every particle
`i` is the float32 narrowing of a point satisfying `Q i`. -/
theorem SceneManager.setShape_target [FloorRing α] (M : JSMath α) (type : String)
    (extraData : ExtraData α) (ps : ParticleSystem α) (k : ℕ)
    (Inv : ℕ → ℕ → List (Vec3 α) → Prop) (Q : ℕ → Vec3 α → Prop)
    (hstep : ∀ j k o, Inv j k o → ∃ p k1 o1,
      SceneManager.setShape.point M type extraData ps.count j k o = .ok (p, k1, o1) ∧
      Inv (j + 1) k1 o1 ∧ Q j p)
    (hinit : Inv 0 k extraData.objects)
    (htl : ps.targetPosition.length = 3 * ps.count)
    (hpl : ps.position.length = 3 * ps.count) :
    (SceneManager.setShape M type extraData ps k).returned = true ∧
    Inv ps.count (SceneManager.setShape M type extraData ps k).state.2.1
      (SceneManager.setShape M type extraData ps k).state.2.2 ∧
    (∀ i, i < ps.count → ∃ p, Q i p ∧
      (SceneManager.setShape M type extraData ps k).state.1.targetPosition[i * 3]?
        = some (fround p.x) ∧
      (SceneManager.setShape M type extraData ps k).state.1.targetPosition[i * 3 + 1]?
        = some (fround p.y) ∧
      (SceneManager.setShape M type extraData ps k).state.1.targetPosition[i * 3 + 2]?
        = some (fround p.z)) := by
  obtain ⟨ps1, hs, hc, ht⟩ := snapshot_normal ps (by rw [htl, hpl])
  obtain ⟨arr, k1, o1, hrun, hinv1, -, -, hset⟩ := SceneManager.setShape.loop_invariant M type
    extraData ps.count Inv Q hstep ps.count 0 ps.targetPosition k extraData.objects hinit
    (by rw [htl]; omega)
  have hres : SceneManager.setShape M type extraData ps k
      = .normal ({ ps1 with targetPosition := arr }, k1, o1) := by
    unfold SceneManager.setShape
    rw [hs]
    dsimp only
    rw [hc, ht, hrun]
  rw [hres]
  rw [Nat.zero_add] at hinv1
  exact ⟨rfl, hinv1, fun i hi => hset i (Nat.zero_le _) (by omega)⟩

theorem SceneManager.setShape.point_DNA [FloorRing α] (M : JSMath α) (extraData : ExtraData α)
    (count j k : ℕ) (o : List (Vec3 α)) :
    SceneManager.setShape.point M "DNA" extraData count j k o
      = .ok (getDNAPoint M j count, k, o) := by
  simp [SceneManager.setShape.point]

/-- After `SceneManager.setShape('DNA')` on a buffer whose arrays hold `count` particles,
the call has returned and the target of every particle is the float32 narrowing of its
helix point. -/
theorem SceneManager.setShape_DNA_target [FloorRing α] (M : JSMath α)
    (extraData : ExtraData α) (ps : ParticleSystem α) (k i : ℕ) (hi : i < ps.count)
    (htl : ps.targetPosition.length = 3 * ps.count)
    (hpl : ps.position.length = 3 * ps.count) :
    (SceneManager.setShape M "DNA" extraData ps k).returned = true ∧
    (SceneManager.setShape M "DNA" extraData ps k).state.1.targetPosition[i * 3]?
      = some (fround (getDNAPoint M i ps.count).x) ∧
    (SceneManager.setShape M "DNA" extraData ps k).state.1.targetPosition[i * 3 + 1]?
      = some (fround (getDNAPoint M i ps.count).y) ∧
    (SceneManager.setShape M "DNA" extraData ps k).state.1.targetPosition[i * 3 + 2]?
      = some (fround (getDNAPoint M i ps.count).z) := by
  obtain ⟨hret, -, hset⟩ := SceneManager.setShape_target M "DNA" extraData ps k
    (fun _ _ _ => True) (fun j p => p = getDNAPoint M j ps.count)
    (fun j k o _ => ⟨_, _, _, SceneManager.setShape.point_DNA M extraData ps.count j k o,
      trivial, rfl⟩) trivial htl hpl
  obtain ⟨p, hp, hx, hy, hz⟩ := hset i hi
  rw [hp] at hx hy hz
  exact ⟨hret, hx, hy, hz⟩

theorem getDNAPoint_zero_hundred (M : JSMath α) :
    getDNAPoint M 0 100 = { x := 0, y := -30, z := 0 } := by
  ext <;> simp [getDNAPoint, getDNAPoint.t]
  norm_num

theorem fround_neg_thirty [FloorRing α] : fround (-30 : α) = -30 := by
  have h := roundToPrecision_intCast (α := α) 24 (-30) (by norm_num)
  simpa [fround] using h

/-- C7 fails on the code: after `SceneManager.setShape('DNA')` on 100 particles the `y` of
the target of particle 1 is the float32 `-15414067 / 2 ^ 19 = -29.399999618530273`, while
`getDNAPoint(1, 100).y` is `-29.4`. -/
theorem helix_target_narrowed :
    1 < 100 ∧
    (SceneManager.setShape ⟨Real.pi, Real.cos, Real.sin, Real.arccos, fun x y => x ^ y,
        fun _ => 0, 0⟩ "DNA" ⟨none⟩
        ⟨100, List.replicate 300 (0 : ℝ), List.replicate 300 0, 0, 1⟩
        0).state.1.targetPosition[1 * 3 + 1]?
      = some (-15414067 / 524288 : ℝ) ∧
    (getDNAPoint (⟨Real.pi, Real.cos, Real.sin, Real.arccos, fun x y => x ^ y,
        fun _ => 0, 0⟩ : JSMath ℝ) 1 100).y = -147 / 5 ∧
    (-15414067 / 524288 : ℝ) ≠ -147 / 5 := by
  have hy : (getDNAPoint (⟨Real.pi, Real.cos, Real.sin, Real.arccos, fun x y => x ^ y,
      fun _ => 0, 0⟩ : JSMath ℝ) 1 100).y = -147 / 5 := by
    simp [getDNAPoint, getDNAPoint.t]
    norm_num
  have hf : fround (-147 / 5 : ℝ) = -15414067 / 524288 := by
    have h := roundToPrecision_eq_of_close 24 (-147 / 5 : ℝ) (-19) (-15414067) (by norm_num)
      (by rw [abs_of_neg (by norm_num)]; norm_num)
      (by rw [abs_of_neg (by norm_num)]; norm_num)
      (by rw [abs_lt]; norm_num)
    rw [fround, h]
    norm_num
  have h := (SceneManager.setShape_DNA_target (⟨Real.pi, Real.cos, Real.sin, Real.arccos,
    fun x y => x ^ y, fun _ => 0, 0⟩ : JSMath ℝ) ⟨none⟩
    ⟨100, List.replicate 300 (0 : ℝ), List.replicate 300 0, 0, 1⟩ 0 1 (by norm_num)
    (List.length_replicate _ _) (List.length_replicate _ _)).2.2.1
  rw [hy, hf] at h
  exact ⟨by norm_num, h, hy, by norm_num⟩

/-- C7 as amended: on a buffer of `N` particles (both arrays of length `3 * N`) and for
every `i < N`, `SceneManager.setShape('DNA')` returns and leaves as the target of particle
`i` the point `getDNAPoint(i, N)` narrowed to float32 in each coordinate; the interpolated
position at `uMix = 1` is that narrowed point whatever the position array holds; and
`getDNAPoint(0, 100)` is the point `(0, -30, 0)` pulled to the axis, which the narrowing
leaves unchanged, not the circle point `(4, -30, 0)`. -/
theorem helix_end_to_end [FloorRing α] (M : JSMath α) (extraData : ExtraData α)
    (ps : ParticleSystem α) (k N i : ℕ) (hi : i < N) (hc : ps.count = N)
    (htl : ps.targetPosition.length = 3 * N) (hpl : ps.position.length = 3 * N) :
    (SceneManager.setShape M "DNA" extraData ps k).returned = true ∧
    ((SceneManager.setShape M "DNA" extraData ps k).state.1.targetPosition[i * 3]?
        = some (fround (getDNAPoint M i N).x) ∧
      (SceneManager.setShape M "DNA" extraData ps k).state.1.targetPosition[i * 3 + 1]?
        = some (fround (getDNAPoint M i N).y) ∧
      (SceneManager.setShape M "DNA" extraData ps k).state.1.targetPosition[i * 3 + 2]?
        = some (fround (getDNAPoint M i N).z)) ∧
    (∀ position : List α,
      ParticleSystem.rendered { (SceneManager.setShape M "DNA" extraData ps k).state.1 with
        position := position, uMix := 1 } i 0 = fround (getDNAPoint M i N).x ∧
      ParticleSystem.rendered { (SceneManager.setShape M "DNA" extraData ps k).state.1 with
        position := position, uMix := 1 } i 1 = fround (getDNAPoint M i N).y ∧
      ParticleSystem.rendered { (SceneManager.setShape M "DNA" extraData ps k).state.1 with
        position := position, uMix := 1 } i 2 = fround (getDNAPoint M i N).z) ∧
    getDNAPoint M 0 100 = { x := 0, y := -30, z := 0 } ∧
    fround (0 : α) = 0 ∧ fround (-30 : α) = -30 ∧
    getDNAPoint M 0 100 ≠ { x := 4, y := -30, z := 0 } := by
  subst hc
  obtain ⟨hret, hx, hy, hz⟩ := SceneManager.setShape_DNA_target M extraData ps k i hi htl hpl
  refine ⟨hret, ⟨hx, hy, hz⟩, ?_, getDNAPoint_zero_hundred M, fround_zero, fround_neg_thirty, ?_⟩
  · intro position
    simp only [ParticleSystem.rendered, mix, List.getD_eq_getElem?_getD, add_zero, hx, hy, hz]
    simp
  · rw [getDNAPoint_zero_hundred]
    intro h
    have hx4 := congrArg Vec3.x h
    norm_num at hx4

/-- Instance of C7 as amended: a buffer of 100 particles at the origin, retargeted to the
helix; the target of particle 0 is `(0, -30, 0)`. -/
theorem helix_end_to_end_witness :
    (0 : ℕ) < 100 ∧
    (SceneManager.setShape ⟨Real.pi, Real.cos, Real.sin, Real.arccos, fun x y => x ^ y,
        fun _ => 0, 0⟩ "DNA" ⟨none⟩
        ⟨100, List.replicate 300 (0 : ℝ), List.replicate 300 0, 0, 1⟩ 0).returned = true ∧
    (SceneManager.setShape ⟨Real.pi, Real.cos, Real.sin, Real.arccos, fun x y => x ^ y,
        fun _ => 0, 0⟩ "DNA" ⟨none⟩
        ⟨100, List.replicate 300 (0 : ℝ), List.replicate 300 0, 0, 1⟩ 0).state.1.targetPosition[0]?
      = some (0 : ℝ) ∧
    (SceneManager.setShape ⟨Real.pi, Real.cos, Real.sin, Real.arccos, fun x y => x ^ y,
        fun _ => 0, 0⟩ "DNA" ⟨none⟩
        ⟨100, List.replicate 300 (0 : ℝ), List.replicate 300 0, 0, 1⟩ 0).state.1.targetPosition[1]?
      = some (-30 : ℝ) ∧
    (SceneManager.setShape ⟨Real.pi, Real.cos, Real.sin, Real.arccos, fun x y => x ^ y,
        fun _ => 0, 0⟩ "DNA" ⟨none⟩
        ⟨100, List.replicate 300 (0 : ℝ), List.replicate 300 0, 0, 1⟩ 0).state.1.targetPosition[2]?
      = some (0 : ℝ) := by
  have h := helix_end_to_end (⟨Real.pi, Real.cos, Real.sin, Real.arccos, fun x y => x ^ y,
    fun _ => 0, 0⟩ : JSMath ℝ) ⟨none⟩
    ⟨100, List.replicate 300 (0 : ℝ), List.replicate 300 0, 0, 1⟩ 0 100 0
    (by norm_num) rfl (List.length_replicate _ _) (List.length_replicate _ _)
  obtain ⟨hret, ⟨hx, hy, hz⟩, -, hp, h0, h30, -⟩ := h
  rw [hp] at hx hy hz
  simp only [h0, h30] at hx hy hz
  exact ⟨by norm_num, hret, hx, hy, hz⟩

/-! ## The helix -/

/-- C8. Helix rung bound: with `Math.cos` and `Math.sin` satisfying
`cos² + sin² = 1`, for `total > 0` and `index < total`: when `k = index mod 50 < 5`,
`getDNAPoint(index, total)` is the circle point `(4 cos φ, y, 4 sin φ)` with `x` and `z`
multiplied by `k / 5` and `y = 60 * index / total - 30` unchanged, its distance from the
axis is `4 * k / 5` and at most 4; when `index mod 50 ≥ 5` that distance is exactly 4. -/
theorem helix_rung_bound (M : JSMath ℝ) (hM : ∀ a, M.cos a ^ 2 + M.sin a ^ 2 = 1)
    (index total : ℕ) (_ht : 0 < total) (_hi : index < total) :
    (index % 50 < 5 →
      (getDNAPoint M index total).x
        = 4 * M.cos (getDNAPoint.phase M index total) * (((index % 50 : ℕ) : ℝ) / 5) ∧
      (getDNAPoint M index total).y = 60 * (index : ℝ) / (total : ℝ) - 30 ∧
      (getDNAPoint M index total).z
        = 4 * M.sin (getDNAPoint.phase M index total) * (((index % 50 : ℕ) : ℝ) / 5) ∧
      Real.sqrt ((getDNAPoint M index total).x ^ 2 + (getDNAPoint M index total).z ^ 2)
        = 4 * ((index % 50 : ℕ) : ℝ) / 5 ∧
      Real.sqrt ((getDNAPoint M index total).x ^ 2 + (getDNAPoint M index total).z ^ 2)
        ≤ 4) ∧
    (5 ≤ index % 50 →
      (getDNAPoint M index total).y = 60 * (index : ℝ) / (total : ℝ) - 30 ∧
      Real.sqrt ((getDNAPoint M index total).x ^ 2 + (getDNAPoint M index total).z ^ 2)
        = 4) := by
  have hcs := hM (getDNAPoint.phase M index total)
  constructor
  · intro hk
    have hx : (getDNAPoint M index total).x
        = 4 * M.cos (getDNAPoint.phase M index total) * (((index % 50 : ℕ) : ℝ) / 5) := by
      simp only [getDNAPoint, hk, if_true]
      ring
    have hz : (getDNAPoint M index total).z
        = 4 * M.sin (getDNAPoint.phase M index total) * (((index % 50 : ℕ) : ℝ) / 5) := by
      simp only [getDNAPoint, hk, if_true]
      ring
    have hy : (getDNAPoint M index total).y = 60 * (index : ℝ) / (total : ℝ) - 30 := by
      simp only [getDNAPoint, hk, if_true, getDNAPoint.t]
      ring
    have hk0 : (0 : ℝ) ≤ ((index % 50 : ℕ) : ℝ) := Nat.cast_nonneg _
    have hk5 : ((index % 50 : ℕ) : ℝ) ≤ 5 := by exact_mod_cast hk.le
    have hsq : (getDNAPoint M index total).x ^ 2 + (getDNAPoint M index total).z ^ 2
        = (4 * ((index % 50 : ℕ) : ℝ) / 5) ^ 2 := by
      rw [hx, hz]
      linear_combination (4 * (((index % 50 : ℕ) : ℝ) / 5)) ^ 2 * hcs
    have hd : Real.sqrt ((getDNAPoint M index total).x ^ 2
        + (getDNAPoint M index total).z ^ 2) = 4 * ((index % 50 : ℕ) : ℝ) / 5 := by
      rw [hsq, Real.sqrt_sq (by positivity)]
    refine ⟨hx, hy, hz, hd, ?_⟩
    rw [hd]
    linarith
  · intro hk
    have hk1 : ¬ index % 50 < 5 := by omega
    have hy : (getDNAPoint M index total).y = 60 * (index : ℝ) / (total : ℝ) - 30 := by
      simp only [getDNAPoint, hk1, if_false, getDNAPoint.t]
      ring
    have hsq : (getDNAPoint M index total).x ^ 2 + (getDNAPoint M index total).z ^ 2
        = (4 : ℝ) ^ 2 := by
      simp only [getDNAPoint, hk1, if_false]
      linear_combination 16 * hcs
    exact ⟨hy, by rw [hsq, Real.sqrt_sq (by norm_num)]⟩

/-- Instance of C8: particle 3 of 100, on a rung, lies at distance `4 * 3 / 5` from the
axis. -/
theorem helix_rung_bound_witness :
    (∀ a, Real.cos a ^ 2 + Real.sin a ^ 2 = 1) ∧ 0 < 100 ∧ 3 < 100 ∧ 3 % 50 < 5 ∧
    Real.sqrt ((getDNAPoint (⟨Real.pi, Real.cos, Real.sin, Real.arccos, fun x y => x ^ y,
        fun _ => 0, 0⟩ : JSMath ℝ) 3 100).x ^ 2
      + (getDNAPoint (⟨Real.pi, Real.cos, Real.sin, Real.arccos, fun x y => x ^ y,
        fun _ => 0, 0⟩ : JSMath ℝ) 3 100).z ^ 2) = 4 * ((3 % 50 : ℕ) : ℝ) / 5 :=
  ⟨Real.cos_sq_add_sin_sq, by norm_num, by norm_num, by norm_num,
    ((helix_rung_bound (⟨Real.pi, Real.cos, Real.sin, Real.arccos, fun x y => x ^ y,
      fun _ => 0, 0⟩ : JSMath ℝ) Real.cos_sq_add_sin_sq 3 100 (by norm_num) (by norm_num)).1
      (by norm_num)).2.2.2.1⟩

/-- C9 fails on the code: with `Math.PI = π`, the arguments `angle + offset` of particles
0 and 1 of 100 differ by `π + π / 5`, which is not `π`. -/
theorem strand_phase_not_pi :
    0 % 2 = 0 ∧ 0 + 1 < 100 ∧
    getDNAPoint.phase (⟨Real.pi, Real.cos, Real.sin, Real.arccos, fun x y => x ^ y,
        fun _ => 0, 0⟩ : JSMath ℝ) (0 + 1) 100
      - getDNAPoint.phase (⟨Real.pi, Real.cos, Real.sin, Real.arccos, fun x y => x ^ y,
        fun _ => 0, 0⟩ : JSMath ℝ) 0 100 = Real.pi + Real.pi / 5 ∧
    getDNAPoint.phase (⟨Real.pi, Real.cos, Real.sin, Real.arccos, fun x y => x ^ y,
        fun _ => 0, 0⟩ : JSMath ℝ) (0 + 1) 100
      - getDNAPoint.phase (⟨Real.pi, Real.cos, Real.sin, Real.arccos, fun x y => x ^ y,
        fun _ => 0, 0⟩ : JSMath ℝ) 0 100 ≠ Real.pi := by
  have h : getDNAPoint.phase (⟨Real.pi, Real.cos, Real.sin, Real.arccos, fun x y => x ^ y,
        fun _ => 0, 0⟩ : JSMath ℝ) (0 + 1) 100
      - getDNAPoint.phase (⟨Real.pi, Real.cos, Real.sin, Real.arccos, fun x y => x ^ y,
        fun _ => 0, 0⟩ : JSMath ℝ) 0 100 = Real.pi + Real.pi / 5 := by
    simp [getDNAPoint.phase, getDNAPoint.angle, getDNAPoint.offset, getDNAPoint.t]
    ring
  refine ⟨rfl, by norm_num, h, ?_⟩
  rw [h]
  have := Real.pi_pos
  intro hc
  linarith

/-- C9 as amended: for `total > 0` and an even index `i` with `i + 1 < total`, the offsets
that `getDNAPoint` gives to particles `i` and `i + 1` differ by exactly `Math.PI`, and the
arguments `angle + offset` of `Math.cos` and `Math.sin` differ by
`Math.PI + 20 * Math.PI / total`: the strand offset plus the advance of the base angle
over one index. -/
theorem strand_offset (M : JSMath α) (total i : ℕ) (ht : 0 < total) (hev : i % 2 = 0)
    (_hi : i + 1 < total) :
    getDNAPoint.offset M (i + 1) - getDNAPoint.offset M i = M.PI ∧
    getDNAPoint.phase M (i + 1) total - getDNAPoint.phase M i total
      = M.PI + 20 * M.PI / (total : α) := by
  have hodd : ¬ (i + 1) % 2 = 0 := by omega
  have ht0 : (total : α) ≠ 0 := by exact_mod_cast ht.ne.symm
  constructor
  · simp [getDNAPoint.offset, hev, hodd]
  · simp only [getDNAPoint.phase, getDNAPoint.angle, getDNAPoint.offset, getDNAPoint.t, hev,
      hodd, if_true, if_false, Nat.cast_add, Nat.cast_one]
    field_simp
    ring

/-- Instance of C9 as amended: particles 0 and 1 of 100 with `Math.PI = π`. -/
theorem strand_offset_witness :
    0 < 100 ∧ 0 % 2 = 0 ∧ 0 + 1 < 100 ∧
    getDNAPoint.phase (⟨Real.pi, Real.cos, Real.sin, Real.arccos, fun x y => x ^ y,
        fun _ => 0, 0⟩ : JSMath ℝ) (0 + 1) 100
      - getDNAPoint.phase (⟨Real.pi, Real.cos, Real.sin, Real.arccos, fun x y => x ^ y,
        fun _ => 0, 0⟩ : JSMath ℝ) 0 100 = Real.pi + 20 * Real.pi / ((100 : ℕ) : ℝ) :=
  ⟨by norm_num, rfl, by norm_num,
    (strand_offset (⟨Real.pi, Real.cos, Real.sin, Real.arccos, fun x y => x ^ y,
      fun _ => 0, 0⟩ : JSMath ℝ) 100 0 (by norm_num) rfl (by norm_num)).2⟩

/-! ## The cell -/

theorem JSMath.sin_mul_cos_bounds (M : JSMath ℝ) (hM : ∀ a, M.cos a ^ 2 + M.sin a ^ 2 = 1)
    (a b : ℝ) : -1 ≤ M.sin a * M.cos b ∧ M.sin a * M.cos b ≤ 1 := by
  have ha := hM a
  have hb := hM b
  constructor <;>
    nlinarith [sq_nonneg (M.sin a - M.cos b), sq_nonneg (M.sin a + M.cos b),
      sq_nonneg (M.cos a), sq_nonneg (M.sin b)]

theorem getCellPoint.sphere_norm_sq (M : JSMath ℝ) (hM : ∀ a, M.cos a ^ 2 + M.sin a ^ 2 = 1)
    (u v : ℝ) :
    (getCellPoint.sphere M u v).x ^ 2 + (getCellPoint.sphere M u v).y ^ 2
      + (getCellPoint.sphere M u v).z ^ 2 = 8 ^ 2 := by
  have h1 := hM (2 * M.PI * u)
  have h2 := hM (M.acos (2 * v - 1))
  simp only [getCellPoint.sphere]
  linear_combination (64 * M.sin (M.acos (2 * v - 1)) ^ 2) * h1 + 64 * h2

/-- C10. Cell norm bound: with `Math.cos` and `Math.sin` satisfying `cos² + sin² = 1`, for
a call of `getCellPoint` whose two draws `u`, `v` lie in `[0, 1)`: the undisplaced sphere
point `(x0, y0, z0)` has norm `r = 8`, the returned point has norm `r * d` with
`d = 1 + 0.2 * sin(0.5 * x0) * cos(0.5 * y0)`, `d` lies in `[0.8, 1.2]` and the norm in
`[6.4, 9.6]`. -/
theorem cell_norm_bound (M : JSMath ℝ) (hM : ∀ a, M.cos a ^ 2 + M.sin a ^ 2 = 1)
    (index total k : ℕ) (_hu : 0 ≤ M.random k ∧ M.random k < 1)
    (_hv : 0 ≤ M.random (k + 1) ∧ M.random (k + 1) < 1) :
    Real.sqrt ((getCellPoint.sphere M (M.random k) (M.random (k + 1))).x ^ 2
      + (getCellPoint.sphere M (M.random k) (M.random (k + 1))).y ^ 2
      + (getCellPoint.sphere M (M.random k) (M.random (k + 1))).z ^ 2) = 8 ∧
    getCellPoint.displacement M (getCellPoint.sphere M (M.random k) (M.random (k + 1)))
      = 1 + 0.2 * M.sin (0.5 * (getCellPoint.sphere M (M.random k) (M.random (k + 1))).x)
          * M.cos (0.5 * (getCellPoint.sphere M (M.random k) (M.random (k + 1))).y) ∧
    Real.sqrt ((getCellPoint M index total k).1.x ^ 2 + (getCellPoint M index total k).1.y ^ 2
      + (getCellPoint M index total k).1.z ^ 2)
      = 8 * getCellPoint.displacement M
          (getCellPoint.sphere M (M.random k) (M.random (k + 1))) ∧
    0.8 ≤ getCellPoint.displacement M
      (getCellPoint.sphere M (M.random k) (M.random (k + 1))) ∧
    getCellPoint.displacement M
      (getCellPoint.sphere M (M.random k) (M.random (k + 1))) ≤ 1.2 ∧
    6.4 ≤ Real.sqrt ((getCellPoint M index total k).1.x ^ 2
      + (getCellPoint M index total k).1.y ^ 2 + (getCellPoint M index total k).1.z ^ 2) ∧
    Real.sqrt ((getCellPoint M index total k).1.x ^ 2
      + (getCellPoint M index total k).1.y ^ 2 + (getCellPoint M index total k).1.z ^ 2)
      ≤ 9.6 := by
  have hs := getCellPoint.sphere_norm_sq M hM (M.random k) (M.random (k + 1))
  have hb := M.sin_mul_cos_bounds hM
    ((getCellPoint.sphere M (M.random k) (M.random (k + 1))).x * 0.5)
    ((getCellPoint.sphere M (M.random k) (M.random (k + 1))).y * 0.5)
  have hd0 : (0.8 : ℝ) ≤ getCellPoint.displacement M
      (getCellPoint.sphere M (M.random k) (M.random (k + 1))) := by
    simp only [getCellPoint.displacement]
    norm_num
    linarith [hb.1]
  have hd1 : getCellPoint.displacement M
      (getCellPoint.sphere M (M.random k) (M.random (k + 1))) ≤ 1.2 := by
    simp only [getCellPoint.displacement]
    norm_num
    linarith [hb.2]
  have hn : Real.sqrt ((getCellPoint M index total k).1.x ^ 2
      + (getCellPoint M index total k).1.y ^ 2 + (getCellPoint M index total k).1.z ^ 2)
      = 8 * getCellPoint.displacement M
          (getCellPoint.sphere M (M.random k) (M.random (k + 1))) := by
    have hsq : (getCellPoint M index total k).1.x ^ 2
        + (getCellPoint M index total k).1.y ^ 2 + (getCellPoint M index total k).1.z ^ 2
        = (8 * getCellPoint.displacement M
          (getCellPoint.sphere M (M.random k) (M.random (k + 1)))) ^ 2 := by
      simp only [getCellPoint, getCellPoint.ofDraws]
      linear_combination (getCellPoint.displacement M
        (getCellPoint.sphere M (M.random k) (M.random (k + 1)))) ^ 2 * hs
    rw [hsq, Real.sqrt_sq (by linarith)]
  refine ⟨by rw [hs, Real.sqrt_sq (by norm_num)], ?_, hn, hd0, hd1, ?_, ?_⟩
  · simp only [getCellPoint.displacement]
    ring_nf
  · rw [hn]
    norm_num at hd0 ⊢
    linarith
  · rw [hn]
    norm_num at hd1 ⊢
    linarith

/-- Instance of C10: the draws `u = 0`, `v = 0.5` with the real cosine, sine and arc
cosine. -/
theorem cell_norm_bound_witness :
    (∀ a, Real.cos a ^ 2 + Real.sin a ^ 2 = 1) ∧
    ((0 : ℝ) ≤ 0 ∧ (0 : ℝ) < 1) ∧ ((0 : ℝ) ≤ 0.5 ∧ (0.5 : ℝ) < 1) ∧
    6.4 ≤ Real.sqrt ((getCellPoint (⟨Real.pi, Real.cos, Real.sin, Real.arccos,
        fun x y => x ^ y, fun n => if n = 0 then 0 else 0.5, 0⟩ : JSMath ℝ) 0 1 0).1.x ^ 2
      + (getCellPoint (⟨Real.pi, Real.cos, Real.sin, Real.arccos,
        fun x y => x ^ y, fun n => if n = 0 then 0 else 0.5, 0⟩ : JSMath ℝ) 0 1 0).1.y ^ 2
      + (getCellPoint (⟨Real.pi, Real.cos, Real.sin, Real.arccos,
        fun x y => x ^ y, fun n => if n = 0 then 0 else 0.5, 0⟩ : JSMath ℝ) 0 1 0).1.z ^ 2) ∧
    Real.sqrt ((getCellPoint (⟨Real.pi, Real.cos, Real.sin, Real.arccos,
        fun x y => x ^ y, fun n => if n = 0 then 0 else 0.5, 0⟩ : JSMath ℝ) 0 1 0).1.x ^ 2
      + (getCellPoint (⟨Real.pi, Real.cos, Real.sin, Real.arccos,
        fun x y => x ^ y, fun n => if n = 0 then 0 else 0.5, 0⟩ : JSMath ℝ) 0 1 0).1.y ^ 2
      + (getCellPoint (⟨Real.pi, Real.cos, Real.sin, Real.arccos,
        fun x y => x ^ y, fun n => if n = 0 then 0 else 0.5, 0⟩ : JSMath ℝ) 0 1 0).1.z ^ 2)
      ≤ 9.6 := by
  have h := cell_norm_bound (⟨Real.pi, Real.cos, Real.sin, Real.arccos,
    fun x y => x ^ y, fun n => if n = 0 then 0 else 0.5, 0⟩ : JSMath ℝ)
    Real.cos_sq_add_sin_sq 0 1 0 (by norm_num) (by norm_num)
  exact ⟨Real.cos_sq_add_sin_sq, by norm_num, by norm_num, h.2.2.2.2.2.1, h.2.2.2.2.2.2⟩

/-! ## The galaxy -/

theorem getGalaxyPoint_x (M : JSMath α) (index total k : ℕ) :
    (getGalaxyPoint M index total k).1.x
      = M.cos (getGalaxyPoint.angle M index total) * getGalaxyPoint.radius M index total
        + getGalaxyPoint.randomSpread (getGalaxyPoint.spin index total) (M.random k) :=
  rfl

theorem getGalaxyPoint_z (M : JSMath α) (index total k : ℕ) :
    (getGalaxyPoint M index total k).1.z
      = M.sin (getGalaxyPoint.angle M index total) * getGalaxyPoint.radius M index total
        + getGalaxyPoint.randomSpread (getGalaxyPoint.spin index total) (M.random (k + 2)) :=
  rfl

theorem getGalaxyPoint.spin_bounds (index total : ℕ) (h : index < total) :
    (0 : α) ≤ getGalaxyPoint.spin index total ∧ getGalaxyPoint.spin index total < (1 : α) := by
  have ht : (0 : α) < (total : α) := by exact_mod_cast Nat.lt_of_le_of_lt (Nat.zero_le _) h
  have hi : (index : α) < (total : α) := by exact_mod_cast h
  exact ⟨div_nonneg (Nat.cast_nonneg _) ht.le, (div_lt_one ht).mpr hi⟩

theorem getGalaxyPoint.randomSpread_zero (spin : α) (h : spin < 1) :
    |getGalaxyPoint.randomSpread spin 0| = 5 - 4 * spin := by
  have h1 : getGalaxyPoint.randomSpread spin 0 = -(5 - 4 * spin) := by
    simp only [getGalaxyPoint.randomSpread]
    norm_num
    ring
  rw [h1, abs_neg, abs_of_nonneg (by linarith)]

theorem getGalaxyPoint.randomSpread_abs_le (spin d : α) (h : spin < 1) (hd0 : 0 ≤ d)
    (hd1 : d < 1) : |getGalaxyPoint.randomSpread spin d| ≤ 5 - 4 * spin := by
  have hpos : (0 : α) ≤ 10 - spin * 8 := by linarith
  have hd : |d - 0.5| ≤ (0.5 : α) := by
    rw [abs_le]
    constructor <;> norm_num <;> linarith
  calc |getGalaxyPoint.randomSpread spin d|
      = |d - 0.5| * (10 - spin * 8) := by
        rw [getGalaxyPoint.randomSpread, abs_mul, abs_of_nonneg hpos]
    _ ≤ 0.5 * (10 - spin * 8) := mul_le_mul_of_nonneg_right hd hpos
    _ = 5 - 4 * spin := by norm_num; ring

/-- C11 fails on the code: at progress 0 (particle 0 of 2) the draw 0 moves `x` by 5 from
the arm point, while at progress 1/2 (particle 1 of 2) no draw of `[0, 1)` moves it by more
than 3: the jitter bound at the smaller progress is the larger one. -/
theorem galaxy_jitter_wider_at_centre :
    getGalaxyPoint.spin 0 2 = (0 : ℚ) ∧ getGalaxyPoint.spin 1 2 = (1 / 2 : ℚ) ∧
    (0 : ℚ) ≤ 1 / 2 ∧ (1 / 2 : ℚ) < 1 ∧
    |getGalaxyPoint.randomSpread (getGalaxyPoint.spin 0 2 : ℚ) 0| = 5 ∧
    (∀ d : ℚ, 0 ≤ d → d < 1 →
      |getGalaxyPoint.randomSpread (getGalaxyPoint.spin 1 2 : ℚ) d| ≤ 3) ∧
    ¬ ((5 : ℚ) ≤ 3) := by
  have h0 : getGalaxyPoint.spin 0 2 = (0 : ℚ) := by norm_num [getGalaxyPoint.spin]
  have h1 : getGalaxyPoint.spin 1 2 = (1 / 2 : ℚ) := by norm_num [getGalaxyPoint.spin]
  refine ⟨h0, h1, by norm_num, by norm_num, ?_, ?_, by norm_num⟩
  · rw [h0, getGalaxyPoint.randomSpread_zero _ (by norm_num)]
    norm_num
  · intro d hd0 hd1
    rw [h1]
    have := getGalaxyPoint.randomSpread_abs_le (1 / 2 : ℚ) d (by norm_num) hd0 hd1
    norm_num at this ⊢
    exact this

/-- C11 as amended: for `index < total` and draws in `[0, 1)`, the `x` and the `z` returned
by `getGalaxyPoint` deviate from the arm point `(cos(angle) * radius, sin(angle) * radius)`
by at most `5 - 4 * progress` each, with `progress = index / total`, and the draw 0 reaches
this bound; the bound is non-increasing in progress: for `0 ≤ p1 ≤ p2 < 1` every jitter
possible at `p2` is at most the largest jitter at `p1`, so the jitter is widest at the
centre and tightest at the rim. -/
theorem galaxy_jitter_bound (M : JSMath α) (index total k : ℕ) (hi : index < total)
    (hx : 0 ≤ M.random k ∧ M.random k < 1)
    (hz : 0 ≤ M.random (k + 2) ∧ M.random (k + 2) < 1) :
    |(getGalaxyPoint M index total k).1.x
        - M.cos (getGalaxyPoint.angle M index total) * getGalaxyPoint.radius M index total|
      ≤ 5 - 4 * getGalaxyPoint.spin index total ∧
    |(getGalaxyPoint M index total k).1.z
        - M.sin (getGalaxyPoint.angle M index total) * getGalaxyPoint.radius M index total|
      ≤ 5 - 4 * getGalaxyPoint.spin index total ∧
    (M.random k = 0 →
      |(getGalaxyPoint M index total k).1.x
          - M.cos (getGalaxyPoint.angle M index total) * getGalaxyPoint.radius M index total|
        = 5 - 4 * getGalaxyPoint.spin index total) ∧
    (∀ p1 p2 d : α, 0 ≤ p1 → p1 ≤ p2 → p2 < 1 → 0 ≤ d → d < 1 →
      |getGalaxyPoint.randomSpread p2 d| ≤ |getGalaxyPoint.randomSpread p1 0| ∧
      |getGalaxyPoint.randomSpread p1 0| = 5 - 4 * p1) := by
  have hs := getGalaxyPoint.spin_bounds (α := α) index total hi
  refine ⟨?_, ?_, ?_, ?_⟩
  · rw [getGalaxyPoint_x, add_sub_cancel_left]
    exact getGalaxyPoint.randomSpread_abs_le _ _ hs.2 hx.1 hx.2
  · rw [getGalaxyPoint_z, add_sub_cancel_left]
    exact getGalaxyPoint.randomSpread_abs_le _ _ hs.2 hz.1 hz.2
  · intro h0
    rw [getGalaxyPoint_x, add_sub_cancel_left, h0]
    exact getGalaxyPoint.randomSpread_zero _ hs.2
  · intro p1 p2 d _ h12 h2 hd0 hd1
    have hb := getGalaxyPoint.randomSpread_abs_le p2 d h2 hd0 hd1
    have hz0 := getGalaxyPoint.randomSpread_zero p1 (lt_of_le_of_lt h12 h2)
    exact ⟨by rw [hz0]; linarith, hz0⟩

/-- Instance of C11 as amended: particle 1 of 2 with the real functions and every draw
equal to 0; its `x` lies at `5 - 4 * (1 / 2)` from the arm point. -/
theorem galaxy_jitter_bound_witness :
    1 < 2 ∧ ((0 : ℝ) ≤ 0 ∧ (0 : ℝ) < 1) ∧
    |(getGalaxyPoint (⟨Real.pi, Real.cos, Real.sin, Real.arccos, fun x y => x ^ y,
          fun _ => 0, 0⟩ : JSMath ℝ) 1 2 0).1.x
        - Real.cos (getGalaxyPoint.angle (⟨Real.pi, Real.cos, Real.sin, Real.arccos,
            fun x y => x ^ y, fun _ => 0, 0⟩ : JSMath ℝ) 1 2)
          * getGalaxyPoint.radius (⟨Real.pi, Real.cos, Real.sin, Real.arccos,
            fun x y => x ^ y, fun _ => 0, 0⟩ : JSMath ℝ) 1 2|
      = 5 - 4 * getGalaxyPoint.spin 1 2 :=
  ⟨by norm_num, ⟨le_refl _, by norm_num⟩,
    (galaxy_jitter_bound (⟨Real.pi, Real.cos, Real.sin, Real.arccos, fun x y => x ^ y,
      fun _ => 0, 0⟩ : JSMath ℝ) 1 2 0 (by norm_num) ⟨le_refl _, by norm_num⟩
      ⟨le_refl _, by norm_num⟩).2.2.1 rfl⟩

/-! ## The text shape -/

theorem SceneManager.setShape.point_TEXT_text [FloorRing α] (M : JSMath α) (P : PointArray α)
    (count j k : ℕ) (o : List (Vec3 α)) (r : ℕ) (p : Vec3 α) (hr : P.refs[j]? = some r)
    (hp : o[r]? = some p) :
    SceneManager.setShape.point M "TEXT" ⟨some P⟩ count j k o
      = .ok ({ x := binary64 (p.x * 1.5), y := binary64 (p.y * 1.5), z := p.z }, k,
          o.set r { x := binary64 (p.x * 1.5), y := binary64 (p.y * 1.5), z := p.z }) := by
  obtain ⟨hj, hrj⟩ := List.getElem?_eq_some_iff.mp hr
  simp [SceneManager.setShape.point, hj, hrj, hp]

theorem SceneManager.setShape.point_TEXT_fallback [FloorRing α] (M : JSMath α) (P : PointArray α)
    (count j k : ℕ) (o : List (Vec3 α)) (h : P.refs.length ≤ j) :
    SceneManager.setShape.point M "TEXT" ⟨some P⟩ count j k o
      = .ok ({ x := binary64 ((getGalaxyPoint M j count k).1.x * 6)
               y := binary64 ((getGalaxyPoint M j count k).1.y * 6)
               z := binary64 ((getGalaxyPoint M j count k).1.z * 6) }, k + 3, o) := by
  have hj : ¬ j < P.refs.length := by omega
  simp [SceneManager.setShape.point, hj, getGalaxyPoint]

omit [LinearOrderedField α] in
theorem nodup_getElem?_inj (l : List ℕ) (hl : l.Nodup) (a b r : ℕ) (ha : l[a]? = some r)
    (hb : l[b]? = some r) : a = b := by
  have hne := List.nodup_iff_getElem?_ne_getElem?.mp hl
  have hla := (List.getElem?_eq_some_iff.mp ha).1
  have hlb := (List.getElem?_eq_some_iff.mp hb).1
  rcases Nat.lt_trichotomy a b with h | h | h
  · exact absurd (ha.trans hb.symm) (hne a b h hlb)
  · exact h
  · exact absurd (hb.trans ha.symm) (hne b a h hla)

/-- One iteration of the `TEXT` loop on an array `P` of distinct point objects keeps the
invariant: after the particles below `j` the draws made are `3 * (j - length)`, the objects
of the particles below `j` are scaled and the others are as at the call. The point of
particle `j` is its text point scaled by 1.5 in `x` and `y`, or 6 times a galaxy point. -/
theorem SceneManager.setShape.step_TEXT [FloorRing α] (M : JSMath α) (P : PointArray α) (count k : ℕ)
    (hnd : P.refs.Nodup) (hobj : ∀ r ∈ P.refs, r < P.objects.length)
    (j k1 : ℕ) (o : List (Vec3 α))
    (hinv : k1 = k + 3 * (j - P.refs.length) ∧ o.length = P.objects.length ∧
      (∀ m r, j ≤ m → P.refs[m]? = some r → o[r]? = P.objects[r]?) ∧
      (∀ m r p, m < j → P.refs[m]? = some r → P.objects[r]? = some p →
        o[r]? = some { x := binary64 (p.x * 1.5), y := binary64 (p.y * 1.5), z := p.z })) :
    ∃ q k2 o2, SceneManager.setShape.point M "TEXT" ⟨some P⟩ count j k1 o = .ok (q, k2, o2) ∧
      (k2 = k + 3 * (j + 1 - P.refs.length) ∧ o2.length = P.objects.length ∧
        (∀ m r, j + 1 ≤ m → P.refs[m]? = some r → o2[r]? = P.objects[r]?) ∧
        (∀ m r p, m < j + 1 → P.refs[m]? = some r → P.objects[r]? = some p →
          o2[r]? = some { x := binary64 (p.x * 1.5), y := binary64 (p.y * 1.5), z := p.z })) ∧
      ((∀ r p, P.refs[j]? = some r → P.objects[r]? = some p →
          q = { x := binary64 (p.x * 1.5), y := binary64 (p.y * 1.5), z := p.z }) ∧
        (P.refs.length ≤ j →
          q = { x := binary64 ((getGalaxyPoint M j count (k + 3 * (j - P.refs.length))).1.x * 6)
                y := binary64 ((getGalaxyPoint M j count (k + 3 * (j - P.refs.length))).1.y * 6)
                z := binary64 ((getGalaxyPoint M j count (k + 3 * (j - P.refs.length))).1.z * 6) })) := by
  obtain ⟨hk, hlen, hrest, hdone⟩ := hinv
  rcases lt_or_le j P.refs.length with hj | hj
  · have hr : P.refs[j]? = some P.refs[j] := List.getElem?_eq_getElem hj
    have hrlt : P.refs[j] < P.objects.length := hobj _ (List.getElem_mem hj)
    have hq : P.objects[P.refs[j]]? = some P.objects[P.refs[j]] := List.getElem?_eq_getElem hrlt
    have hoq : o[P.refs[j]]? = some P.objects[P.refs[j]] := by
      rw [hrest j _ (le_refl j) hr, hq]
    refine ⟨_, _, _, SceneManager.setShape.point_TEXT_text M P count j k1 o _ _ hr hoq,
      ⟨by omega, by rw [List.length_set, hlen], ?_, ?_⟩, ?_, fun h => absurd hj (by omega)⟩
    · intro m r hm hmr
      have hne : P.refs[j] ≠ r := by
        intro heq
        have := nodup_getElem?_inj P.refs hnd j m r (by rw [hr, heq]) hmr
        omega
      rw [List.getElem?_set_ne hne]
      exact hrest m r (by omega) hmr
    · intro m r p hm hmr hp
      rcases Nat.lt_succ_iff_lt_or_eq.mp hm with hlt | heq
      · have hne : P.refs[j] ≠ r := by
          intro heq
          have := nodup_getElem?_inj P.refs hnd j m r (by rw [hr, heq]) hmr
          omega
        rw [List.getElem?_set_ne hne]
        exact hdone m r p hlt hmr hp
      · subst heq
        have hrr : P.refs[m] = r := by
          rw [hr] at hmr
          exact Option.some.inj hmr
        subst hrr
        rw [hq] at hp
        have hpp := Option.some.inj hp
        subst hpp
        rw [List.getElem?_set_self (by rw [hlen]; exact hrlt)]
    · intro r p hmr hp
      rw [hr] at hmr
      have hrr := Option.some.inj hmr
      subst hrr
      rw [hq] at hp
      have hpp := Option.some.inj hp
      subst hpp
      rfl
  · have hnone : P.refs[j]? = none := List.getElem?_eq_none hj
    refine ⟨_, _, _, SceneManager.setShape.point_TEXT_fallback M P count j k1 o hj,
      ⟨by omega, hlen, ?_, ?_⟩, ?_, fun _ => by rw [hk]⟩
    · intro m r hm hmr
      exact hrest m r (by omega) hmr
    · intro m r p hm hmr hp
      have hml := (List.getElem?_eq_some_iff.mp hmr).1
      exact hdone m r p (by omega) hmr hp
    · intro r p hmr
      rw [hnone] at hmr
      exact absurd hmr (by simp)

/-- Every point pushed by `sampleTextCoordinates` has `z: 0`. -/
theorem sampleTextCoordinates_z (getImageData : String → ℕ → ℕ → ℕ) (text : String)
    (particleCount fontSize : ℕ) :
    ∀ p ∈ (sampleTextCoordinates getImageData text particleCount fontSize : List (Vec3 α)),
      p.z = 0 := by
  intro p hp
  simp only [sampleTextCoordinates, List.mem_flatMap, List.mem_filterMap] at hp
  obtain ⟨row, -, col, -, h⟩ := hp
  split at h
  · injection h with h
    rw [← h]
  · exact absurd h (by simp)

omit [LinearOrderedField α] in
/-- An array of freshly created objects holds each object once, and all its elements are
objects. -/
theorem PointArray.ofObjects_distinct (objects : List (Vec3 α)) :
    (PointArray.ofObjects objects).refs.Nodup ∧
    ∀ r ∈ (PointArray.ofObjects objects).refs, r < (PointArray.ofObjects objects).objects.length := by
  refine ⟨List.nodup_range _, ?_⟩
  intro r hr
  exact List.mem_range.mp hr

/-- C12 fails on the code: with the same point object `(1, 1, 0)` at both indices of `P`
and two particles, `SceneManager.setShape('TEXT', { points: P })` scales the object twice
and stores `x = 2.25` for particle 1, not `1.5 * P[1].x = 1.5`. -/
theorem glyph_alias_scaled_twice :
    (1 : ℕ) < 2 ∧
    (⟨[0, 0], [⟨1, 1, 0⟩]⟩ : PointArray ℝ).refs[1]? = some 0 ∧
    (⟨[0, 0], [⟨1, 1, 0⟩]⟩ : PointArray ℝ).objects[0]? = some ⟨1, 1, 0⟩ ∧
    (SceneManager.setShape ⟨Real.pi, Real.cos, Real.sin, Real.arccos, fun x y => x ^ y,
        fun _ => 0, 0⟩ "TEXT" ⟨some ⟨[0, 0], [⟨1, 1, 0⟩]⟩⟩
        ⟨2, List.replicate 6 (0 : ℝ), List.replicate 6 0, 0, 1⟩
        0).state.1.targetPosition[1 * 3]? = some (9 / 4 : ℝ) ∧
    (9 / 4 : ℝ) ≠ 1.5 * 1 := by
  have hf : fround (9 / 4 : ℝ) = 9 / 4 := by
    have h := roundToPrecision_of_int_mul_zpow (α := ℝ) 24 9 (-2) (by norm_num)
    norm_num at h
    exact h
  have hb1 : binary64 (3 / 2 : ℝ) = 3 / 2 := by
    have h := roundToPrecision_of_int_mul_zpow (α := ℝ) 53 3 (-1) (by norm_num)
    norm_num at h
    exact h
  have hb2 : binary64 (9 / 4 : ℝ) = 9 / 4 := by
    have h := roundToPrecision_of_int_mul_zpow (α := ℝ) 53 9 (-2) (by norm_num)
    norm_num at h
    exact h
  have ht : (SceneManager.setShape (⟨Real.pi, Real.cos, Real.sin, Real.arccos,
        fun x y => x ^ y, fun _ => 0, 0⟩ : JSMath ℝ) "TEXT" ⟨some ⟨[0, 0], [⟨1, 1, 0⟩]⟩⟩
        ⟨2, List.replicate 6 (0 : ℝ), List.replicate 6 0, 0, 1⟩
        0).state.1.targetPosition
      = [fround (3 / 2), fround (3 / 2), fround 0, fround (9 / 4), fround (9 / 4), fround 0] := by
    norm_num [SceneManager.setShape, snapshot, ExtraData.objects, SceneManager.setShape.loop,
      SceneManager.setShape.point, storePoint, Completion.state, List.replicate, hb1, hb2]
  refine ⟨by norm_num, rfl, rfl, ?_, by norm_num⟩
  rw [ht, hf]
  rfl

/-- C12 as amended: on a buffer of `N` particles (both arrays of length `3 * N`), for an
array `P` of distinct point objects and every `i < N`,
`SceneManager.setShape('TEXT', { points: P })`, called after `k` draws, returns and sets the
target of particle `i`, when `i < length(P)` and `p` is the object `P[i]` as it was at the
call, to `(1.5 * p.x, 1.5 * p.y, p.z)`, the products rounded to double and all three
narrowed to float32 (the third coordinate is 0 when `p.z` is 0, as for the points of
`sampleTextCoordinates`), leaving the object itself scaled to the doubles
`(1.5 * p.x, 1.5 * p.y, p.z)`; and, when `i ≥ length(P)`, to 6 times the galaxy point
`getGalaxyPoint(i, N)` in each coordinate, rounded to double and narrowed to float32 (the
point computed from the three draws after the first `k + 3 * (i - length(P))`); when `P` is
empty every particle receives this fallback. -/
theorem glyph_mapping [FloorRing α] (M : JSMath α) (P : PointArray α) (ps : ParticleSystem α)
    (k N i : ℕ) (hi : i < N) (hc : ps.count = N)
    (htl : ps.targetPosition.length = 3 * N) (hpl : ps.position.length = 3 * N)
    (hnd : P.refs.Nodup) (hobj : ∀ r ∈ P.refs, r < P.objects.length) :
    (SceneManager.setShape M "TEXT" ⟨some P⟩ ps k).returned = true ∧
    (∀ r p, P.refs[i]? = some r → P.objects[r]? = some p →
      (SceneManager.setShape M "TEXT" ⟨some P⟩ ps k).state.1.targetPosition[i * 3]?
        = some (fround (binary64 (1.5 * p.x))) ∧
      (SceneManager.setShape M "TEXT" ⟨some P⟩ ps k).state.1.targetPosition[i * 3 + 1]?
        = some (fround (binary64 (1.5 * p.y))) ∧
      (SceneManager.setShape M "TEXT" ⟨some P⟩ ps k).state.1.targetPosition[i * 3 + 2]?
        = some (fround p.z) ∧
      (p.z = 0 →
        (SceneManager.setShape M "TEXT" ⟨some P⟩ ps k).state.1.targetPosition[i * 3 + 2]?
          = some 0) ∧
      (SceneManager.setShape M "TEXT" ⟨some P⟩ ps k).state.2.2[r]?
        = some { x := binary64 (1.5 * p.x), y := binary64 (1.5 * p.y), z := p.z }) ∧
    (P.refs.length ≤ i →
      (SceneManager.setShape M "TEXT" ⟨some P⟩ ps k).state.1.targetPosition[i * 3]?
        = some (fround (binary64 (6 * (getGalaxyPoint M i N (k + 3 * (i - P.refs.length))).1.x))) ∧
      (SceneManager.setShape M "TEXT" ⟨some P⟩ ps k).state.1.targetPosition[i * 3 + 1]?
        = some (fround (binary64 (6 * (getGalaxyPoint M i N (k + 3 * (i - P.refs.length))).1.y))) ∧
      (SceneManager.setShape M "TEXT" ⟨some P⟩ ps k).state.1.targetPosition[i * 3 + 2]?
        = some (fround (binary64 (6 * (getGalaxyPoint M i N (k + 3 * (i - P.refs.length))).1.z)))) ∧
    (P.refs = [] →
      (SceneManager.setShape M "TEXT" ⟨some P⟩ ps k).state.1.targetPosition[i * 3]?
        = some (fround (binary64 (6 * (getGalaxyPoint M i N (k + 3 * i)).1.x))) ∧
      (SceneManager.setShape M "TEXT" ⟨some P⟩ ps k).state.1.targetPosition[i * 3 + 1]?
        = some (fround (binary64 (6 * (getGalaxyPoint M i N (k + 3 * i)).1.y))) ∧
      (SceneManager.setShape M "TEXT" ⟨some P⟩ ps k).state.1.targetPosition[i * 3 + 2]?
        = some (fround (binary64 (6 * (getGalaxyPoint M i N (k + 3 * i)).1.z)))) := by
  subst hc
  obtain ⟨hret, hinv, hset⟩ := SceneManager.setShape_target M "TEXT" ⟨some P⟩ ps k
    (fun j k1 o => k1 = k + 3 * (j - P.refs.length) ∧ o.length = P.objects.length ∧
      (∀ m r, j ≤ m → P.refs[m]? = some r → o[r]? = P.objects[r]?) ∧
      (∀ m r p, m < j → P.refs[m]? = some r → P.objects[r]? = some p →
        o[r]? = some { x := binary64 (p.x * 1.5), y := binary64 (p.y * 1.5), z := p.z }))
    (fun j q => (∀ r p, P.refs[j]? = some r → P.objects[r]? = some p →
          q = { x := binary64 (p.x * 1.5), y := binary64 (p.y * 1.5), z := p.z }) ∧
        (P.refs.length ≤ j →
          q = { x := binary64 ((getGalaxyPoint M j ps.count (k + 3 * (j - P.refs.length))).1.x * 6)
                y := binary64 ((getGalaxyPoint M j ps.count (k + 3 * (j - P.refs.length))).1.y * 6)
                z := binary64 ((getGalaxyPoint M j ps.count (k + 3 * (j - P.refs.length))).1.z * 6) }))
    (SceneManager.setShape.step_TEXT M P ps.count k hnd hobj)
    ⟨by omega, rfl, fun _ _ _ _ => rfl, fun m _ _ hm => absurd hm (Nat.not_lt_zero m)⟩
    htl hpl
  obtain ⟨q, ⟨hq1, hq2⟩, hx, hy, hz⟩ := hset i hi
  have hfall : P.refs.length ≤ i →
      (SceneManager.setShape M "TEXT" ⟨some P⟩ ps k).state.1.targetPosition[i * 3]?
        = some (fround (binary64 (6 * (getGalaxyPoint M i ps.count (k + 3 * (i - P.refs.length))).1.x))) ∧
      (SceneManager.setShape M "TEXT" ⟨some P⟩ ps k).state.1.targetPosition[i * 3 + 1]?
        = some (fround (binary64 (6 * (getGalaxyPoint M i ps.count (k + 3 * (i - P.refs.length))).1.y))) ∧
      (SceneManager.setShape M "TEXT" ⟨some P⟩ ps k).state.1.targetPosition[i * 3 + 2]?
        = some (fround (binary64 (6 * (getGalaxyPoint M i ps.count
            (k + 3 * (i - P.refs.length))).1.z))) := by
    intro hle
    rw [hq2 hle] at hx hy hz
    rw [mul_comm (6 : α), mul_comm (6 : α), mul_comm (6 : α)]
    exact ⟨hx, hy, hz⟩
  refine ⟨hret, ?_, hfall, ?_⟩
  · intro r p hr hp
    rw [hq1 r p hr hp] at hx hy hz
    have ho := hinv.2.2.2 i r p hi hr hp
    rw [mul_comm (1.5 : α), mul_comm (1.5 : α)]
    refine ⟨hx, hy, hz, ?_, ho⟩
    intro h0
    rw [hz]
    dsimp only
    rw [h0, fround_zero]
  · intro hnil
    have h := hfall (by rw [hnil]; exact Nat.zero_le _)
    rw [hnil] at h
    exact h

/-- Instance of C12 as amended: two particles and the array of the single new point object
`(1, 2, 0)`; particle 0 gets the target `(1.5 * 1, 1.5 * 2, 0)`, rounded to double and
narrowed to float32. -/
theorem glyph_mapping_witness :
    0 < 2 ∧
    (PointArray.ofObjects [(⟨1, 2, 0⟩ : Vec3 ℝ)]).refs.Nodup ∧
    (∀ r ∈ (PointArray.ofObjects [(⟨1, 2, 0⟩ : Vec3 ℝ)]).refs,
      r < (PointArray.ofObjects [(⟨1, 2, 0⟩ : Vec3 ℝ)]).objects.length) ∧
    (SceneManager.setShape ⟨Real.pi, Real.cos, Real.sin, Real.arccos, fun x y => x ^ y,
        fun _ => 0, 0⟩ "TEXT" ⟨some (PointArray.ofObjects [⟨1, 2, 0⟩])⟩
        ⟨2, List.replicate 6 (0 : ℝ), List.replicate 6 0, 0, 1⟩ 0).state.1.targetPosition[0 * 3]?
      = some (fround (binary64 (1.5 * 1 : ℝ))) ∧
    (SceneManager.setShape ⟨Real.pi, Real.cos, Real.sin, Real.arccos, fun x y => x ^ y,
        fun _ => 0, 0⟩ "TEXT" ⟨some (PointArray.ofObjects [⟨1, 2, 0⟩])⟩
        ⟨2, List.replicate 6 (0 : ℝ), List.replicate 6 0, 0, 1⟩ 0).state.1.targetPosition[0 * 3 + 1]?
      = some (fround (binary64 (1.5 * 2 : ℝ))) ∧
    (SceneManager.setShape ⟨Real.pi, Real.cos, Real.sin, Real.arccos, fun x y => x ^ y,
        fun _ => 0, 0⟩ "TEXT" ⟨some (PointArray.ofObjects [⟨1, 2, 0⟩])⟩
        ⟨2, List.replicate 6 (0 : ℝ), List.replicate 6 0, 0, 1⟩ 0).state.1.targetPosition[0 * 3 + 2]?
      = some (0 : ℝ) :=
  have hd := PointArray.ofObjects_distinct [(⟨1, 2, 0⟩ : Vec3 ℝ)]
  have h := (glyph_mapping (⟨Real.pi, Real.cos, Real.sin, Real.arccos, fun x y => x ^ y,
      fun _ => 0, 0⟩ : JSMath ℝ) (PointArray.ofObjects [⟨1, 2, 0⟩])
      ⟨2, List.replicate 6 (0 : ℝ), List.replicate 6 0, 0, 1⟩ 0 2 0 (by norm_num) rfl
      (List.length_replicate _ _) (List.length_replicate _ _) hd.1 hd.2).2.1 0 ⟨1, 2, 0⟩ rfl rfl
  ⟨by norm_num, hd.1, hd.2, h.1, h.2.1, h.2.2.2.1 rfl⟩

/-! ## The camera dolly -/

theorem roundHalfEven_tie_even [FloorRing α] (n : ℤ) (hn : n % 2 = 0) :
    roundHalfEven ((n : α) + 1 / 2) = n := by
  have hf : ⌊(n : α) + 1 / 2⌋ = n :=
    Int.floor_eq_iff.mpr ⟨by linarith, by linarith⟩
  have h1 : ¬ (n : α) + 1 / 2 - (n : α) < 1 / 2 := by simp
  have h2 : ¬ (1 / 2 : α) < (n : α) + 1 / 2 - (n : α) := by simp
  simp only [roundHalfEven, hf, h1, h2, hn, if_true, if_false]

/-- A rounding computed from a certificate, at a tie: with
`2 ^ (e + prec - 1) ≤ |x| < 2 ^ (e + prec)` and `x / 2 ^ e` half way between the even integer
`n` and `n + 1`, the result is `n * 2 ^ e`. -/
theorem roundToPrecision_eq_of_tie_even [FloorRing α] (p : ℕ) (x : α) (e n : ℤ) (hx : x ≠ 0)
    (hlo : (2 : α) ^ (e + ((p : ℤ) - 1)) ≤ |x|) (hhi : |x| < (2 : α) ^ (e + (p : ℤ)))
    (ht : x / 2 ^ e = (n : α) + 1 / 2) (hn : n % 2 = 0) :
    roundToPrecision p x = n * 2 ^ e := by
  have hlog : Int.log 2 |x| = e + ((p : ℤ) - 1) :=
    log_two_eq |x| _ (abs_pos.mpr hx) hlo (by
      have : e + ((p : ℤ) - 1) + 1 = e + (p : ℤ) := by ring
      rw [this]; exact hhi)
  have he : e + ((p : ℤ) - 1) - ((p : ℤ) - 1) = e := by ring
  simp only [roundToPrecision, hx, if_false, hlog, he]
  rw [ht, roundHalfEven_tie_even n hn]

theorem binary64_nonneg [FloorRing α] (x : α) (h : 0 ≤ x) : 0 ≤ binary64 x :=
  roundToPrecision_nonneg 53 (by norm_num) x h

theorem binary64_le_two_mul [FloorRing α] (x : α) (h : 0 ≤ x) : binary64 x ≤ 2 * x := by
  have h1 := binary64_abs_sub_le x
  rw [abs_of_nonneg h, abs_le] at h1
  have hu : (2 : α) ^ (-53 : ℤ) ≤ 1 := by norm_num
  nlinarith [h1.2]

theorem binary64_const_step [FloorRing α] :
    (0 : α) ≤ binary64 0.02 ∧ binary64 (0.02 : α) ≤ 1 / 40 ∧
    |binary64 (0.02 : α) - 0.02| ≤ 1 / 2 ^ 58 := by
  have h1 := binary64_abs_sub_le (0.02 : α)
  rw [abs_of_pos (by norm_num : (0 : α) < 0.02)] at h1
  have hb : |binary64 (0.02 : α) - 0.02| ≤ 1 / 2 ^ 58 := by
    refine le_trans h1 ?_
    norm_num
  refine ⟨binary64_nonneg _ (by norm_num), ?_, hb⟩
  rw [abs_le] at hb
  norm_num at hb ⊢
  linarith [hb.2]

theorem binary64_const_near [FloorRing α] : (999 / 10000 : α) ≤ binary64 0.1 := by
  have h1 := binary64_abs_sub_le (0.1 : α)
  rw [abs_of_pos (by norm_num : (0 : α) < 0.1), abs_le] at h1
  norm_num at h1 ⊢
  linarith [h1.1]

theorem SceneManager.zoomCamera.step_neg [FloorRing α] (endZ currentZ : α) :
    SceneManager.zoomCamera.step (-endZ) (-currentZ)
      = -SceneManager.zoomCamera.step endZ currentZ := by
  unfold SceneManager.zoomCamera.step
  have h1 : -endZ - -currentZ = -(endZ - currentZ) := by ring
  rw [h1, binary64_neg, neg_mul, binary64_neg, ← neg_add, binary64_neg]

/-- A frame moves a double `currentZ ≤ endZ` toward the double `endZ` without passing it. -/
theorem SceneManager.zoomCamera.step_between [FloorRing α] (endZ currentZ : α)
    (hE : binary64 endZ = endZ) (hz : binary64 currentZ = currentZ) (h : currentZ ≤ endZ) :
    currentZ ≤ SceneManager.zoomCamera.step endZ currentZ ∧
    SceneManager.zoomCamera.step endZ currentZ ≤ endZ := by
  obtain ⟨hc0, hc1, -⟩ := binary64_const_step (α := α)
  have hd0 : 0 ≤ endZ - currentZ := sub_nonneg.mpr h
  have hd1 := binary64_nonneg _ hd0
  have hd2 := binary64_le_two_mul _ hd0
  have hp0 : 0 ≤ binary64 (endZ - currentZ) * binary64 0.02 := mul_nonneg hd1 hc0
  have hp1 : binary64 (endZ - currentZ) * binary64 0.02 ≤ (endZ - currentZ) / 20 := by
    nlinarith
  have hi0 := binary64_nonneg _ hp0
  have hi1 := binary64_le_two_mul _ hp0
  unfold SceneManager.zoomCamera.step
  constructor
  · have := binary64_mono currentZ
      (currentZ + binary64 (binary64 (endZ - currentZ) * binary64 0.02)) (by linarith)
    rwa [hz] at this
  · have := binary64_mono
      (currentZ + binary64 (binary64 (endZ - currentZ) * binary64 0.02)) endZ (by linarith)
    rwa [hE] at this

/-- A frame moves a double `currentZ ≥ endZ` toward the double `endZ` without passing it. -/
theorem SceneManager.zoomCamera.step_between_above [FloorRing α] (endZ currentZ : α)
    (hE : binary64 endZ = endZ) (hz : binary64 currentZ = currentZ) (h : endZ ≤ currentZ) :
    endZ ≤ SceneManager.zoomCamera.step endZ currentZ ∧
    SceneManager.zoomCamera.step endZ currentZ ≤ currentZ := by
  have hb := SceneManager.zoomCamera.step_between (-endZ) (-currentZ)
    (by rw [binary64_neg, hE]) (by rw [binary64_neg, hz]) (by linarith)
  rw [SceneManager.zoomCamera.step_neg] at hb
  constructor <;> linarith [hb.1, hb.2]

theorem binary64_abs_sub_le_of_abs_le [FloorRing α] (x b : α) (hb : |x| ≤ b) :
    |binary64 x - x| ≤ b / 2 ^ 53 := by
  have h1 := binary64_abs_sub_le x
  have hu : (2 : α) ^ (-53 : ℤ) = 1 / 2 ^ 53 := by norm_num
  rw [hu] at h1
  have : 1 / 2 ^ 53 * |x| ≤ 1 / 2 ^ 53 * b := mul_le_mul_of_nonneg_left hb (by positivity)
  calc |binary64 x - x| ≤ 1 / 2 ^ 53 * |x| := h1
    _ ≤ 1 / 2 ^ 53 * b := this
    _ = b / 2 ^ 53 := by ring

/-- One frame multiplies the distance to `endZ` by 0.98, up to `2 ^ (-19)`, when both numbers
are at most `2 ^ 32` in magnitude. -/
theorem SceneManager.zoomCamera.step_error [FloorRing α] (endZ currentZ : α)
    (hE : |endZ| ≤ 2 ^ 32) (hz : |currentZ| ≤ 2 ^ 32) :
    |(endZ - SceneManager.zoomCamera.step endZ currentZ) - 0.98 * (endZ - currentZ)|
      ≤ 1 / 2 ^ 19 := by
  obtain ⟨hc0, hc1, hc2⟩ := binary64_const_step (α := α)
  have hδ : |endZ - currentZ| ≤ 2 ^ 33 := by
    calc |endZ - currentZ| ≤ |endZ| + |currentZ| := abs_sub _ _
      _ ≤ 2 ^ 32 + 2 ^ 32 := add_le_add hE hz
      _ = 2 ^ 33 := by norm_num
  have h1 := binary64_abs_sub_le_of_abs_le (endZ - currentZ) _ hδ
  have hd : |binary64 (endZ - currentZ)| ≤ 2 ^ 34 := by
    have := abs_sub_abs_le_abs_sub (binary64 (endZ - currentZ)) (endZ - currentZ)
    have h3 : ((2 : α) ^ 33) / 2 ^ 53 ≤ 1 := by norm_num
    have h4 : (2 : α) ^ 34 = 2 ^ 33 + 2 ^ 33 := by norm_num
    linarith
  have hp : |binary64 (endZ - currentZ) * binary64 0.02| ≤ 2 ^ 29 := by
    rw [abs_mul, abs_of_nonneg hc0]
    calc |binary64 (endZ - currentZ)| * binary64 0.02 ≤ 2 ^ 34 * (1 / 40) :=
          mul_le_mul hd hc1 hc0 (by positivity)
      _ ≤ 2 ^ 29 := by norm_num
  have h2 := binary64_abs_sub_le_of_abs_le _ _ hp
  have hi : |binary64 (binary64 (endZ - currentZ) * binary64 0.02)| ≤ 2 ^ 30 := by
    have := abs_sub_abs_le_abs_sub (binary64 (binary64 (endZ - currentZ) * binary64 0.02))
      (binary64 (endZ - currentZ) * binary64 0.02)
    have h3 : ((2 : α) ^ 29) / 2 ^ 53 ≤ 1 := by norm_num
    have h4 : (2 : α) ^ 30 = 2 ^ 29 + 2 ^ 29 := by norm_num
    linarith
  have hs : |currentZ + binary64 (binary64 (endZ - currentZ) * binary64 0.02)| ≤ 2 ^ 33 := by
    calc _ ≤ |currentZ| + |binary64 (binary64 (endZ - currentZ) * binary64 0.02)| :=
          abs_add _ _
      _ ≤ 2 ^ 32 + 2 ^ 30 := add_le_add hz hi
      _ ≤ 2 ^ 33 := by norm_num
  have h3 := binary64_abs_sub_le_of_abs_le _ _ hs
  have ht1 : |(0.02 - binary64 (0.02 : α)) * (endZ - currentZ)| ≤ 1 / 2 ^ 58 * 2 ^ 33 := by
    rw [abs_mul, abs_sub_comm]
    exact mul_le_mul hc2 hδ (abs_nonneg _) (by positivity)
  have ht2 : |binary64 (0.02 : α) * (binary64 (endZ - currentZ) - (endZ - currentZ))|
      ≤ 1 / 40 * (2 ^ 33 / 2 ^ 53) := by
    rw [abs_mul, abs_of_nonneg hc0]
    exact mul_le_mul hc1 h1 (abs_nonneg _) (by positivity)
  have hid : (endZ - SceneManager.zoomCamera.step endZ currentZ) - 0.98 * (endZ - currentZ)
      = (0.02 - binary64 (0.02 : α)) * (endZ - currentZ)
        - binary64 (0.02 : α) * (binary64 (endZ - currentZ) - (endZ - currentZ))
        - (binary64 (binary64 (endZ - currentZ) * binary64 0.02)
            - binary64 (endZ - currentZ) * binary64 0.02)
        - (binary64 (currentZ + binary64 (binary64 (endZ - currentZ) * binary64 0.02))
            - (currentZ + binary64 (binary64 (endZ - currentZ) * binary64 0.02))) := by
    unfold SceneManager.zoomCamera.step
    norm_num
    ring
  rw [hid]
  rw [abs_le] at ht1 ht2 h2 h3 ⊢
  norm_num at ht1 ht2 h2 h3 ⊢
  constructor <;> linarith [ht1.1, ht1.2, ht2.1, ht2.2, h2.1, h2.2, h3.1, h3.2]

/-- C13 fails on the code: from the double `10 ^ 17 - 384` toward the double `10 ^ 17` the
increment `384 * 0.02 = 7.68` is less than half the spacing 16 of the doubles there, so a
frame leaves `currentZ` unchanged at distance `384 > 0.1` and the loop never stops. -/
theorem camera_dolly_stalls :
    binary64 (10 ^ 17 : ℝ) = 10 ^ 17 ∧ binary64 (10 ^ 17 - 384 : ℝ) = 10 ^ 17 - 384 ∧
    SceneManager.zoomCamera.step (10 ^ 17 : ℝ) (10 ^ 17 - 384) = 10 ^ 17 - 384 ∧
    |binary64 ((10 ^ 17 : ℝ) - (10 ^ 17 - 384))| = 384 ∧
    binary64 (0.1 : ℝ) < 384 ∧
    (∀ fuel : ℕ, SceneManager.zoomCamera (10 ^ 17 - 384 : ℝ) (10 ^ 17) fuel = none) := by
  have hE : binary64 (10 ^ 17 : ℝ) = 10 ^ 17 := by
    have h := roundToPrecision_of_int_mul_zpow (α := ℝ) 53 762939453125 17 (by norm_num)
    have he : ((762939453125 : ℤ) : ℝ) * 2 ^ (17 : ℤ) = 10 ^ 17 := by norm_num
    rw [he] at h
    exact h
  have hz : binary64 (10 ^ 17 - 384 : ℝ) = 10 ^ 17 - 384 := by
    have h := roundToPrecision_of_int_mul_zpow (α := ℝ) 53 781249999999997 7 (by norm_num)
    have he : ((781249999999997 : ℤ) : ℝ) * 2 ^ (7 : ℤ) = 10 ^ 17 - 384 := by norm_num
    rw [he] at h
    exact h
  have hd : binary64 ((10 ^ 17 : ℝ) - (10 ^ 17 - 384)) = 384 := by
    have h := roundToPrecision_intCast (α := ℝ) 53 384 (by norm_num)
    have he : (10 ^ 17 : ℝ) - (10 ^ 17 - 384) = ((384 : ℤ) : ℝ) := by norm_num
    rw [binary64, he, h]
    norm_num
  have hc : binary64 (0.02 : ℝ) = 5764607523034235 / 2 ^ 58 := by
    have h := roundToPrecision_eq_of_close 53 (0.02 : ℝ) (-58) 5764607523034235 (by norm_num)
      (by rw [abs_of_pos (by norm_num)]; norm_num)
      (by rw [abs_of_pos (by norm_num)]; norm_num)
      (by rw [abs_lt]; norm_num)
    rw [binary64, h]
    norm_num
  have hi : binary64 ((384 : ℝ) * (5764607523034235 / 2 ^ 58)) = 8646911284551352 / 2 ^ 50 := by
    have h := roundToPrecision_eq_of_tie_even 53 ((384 : ℝ) * (5764607523034235 / 2 ^ 58))
      (-50) 8646911284551352 (by norm_num)
      (by rw [abs_of_pos (by norm_num)]; norm_num)
      (by rw [abs_of_pos (by norm_num)]; norm_num)
      (by norm_num) (by norm_num)
    rw [binary64, h]
    norm_num
  have hs : binary64 ((10 ^ 17 - 384 : ℝ) + 8646911284551352 / 2 ^ 50) = 10 ^ 17 - 384 := by
    have h := roundToPrecision_eq_of_close 53
      ((10 ^ 17 - 384 : ℝ) + 8646911284551352 / 2 ^ 50) 4 6249999999999976 (by norm_num)
      (by rw [abs_of_pos (by norm_num)]; norm_num)
      (by rw [abs_of_pos (by norm_num)]; norm_num)
      (by rw [abs_lt]; norm_num)
    rw [binary64, h]
    norm_num
  have hstep : SceneManager.zoomCamera.step (10 ^ 17 : ℝ) (10 ^ 17 - 384) = 10 ^ 17 - 384 := by
    unfold SceneManager.zoomCamera.step
    rw [hd, hc, hi, hs]
  have hnear : binary64 (0.1 : ℝ) < 384 := by
    rw [binary64_one_tenth]
    norm_num
  have hfar : |binary64 ((10 ^ 17 : ℝ) - (10 ^ 17 - 384))| > binary64 (0.1 : ℝ) := by
    rw [hd, abs_of_pos (by norm_num)]
    exact hnear
  refine ⟨hE, hz, hstep, by rw [hd]; norm_num, hnear, ?_⟩
  intro fuel
  unfold SceneManager.zoomCamera
  induction fuel with
  | zero => rfl
  | succ n ih =>
    simp only [SceneManager.zoomCamera.animate, hstep, hfar, if_true, ih, Option.map_none']

theorem binary64_abs [FloorRing α] (x : α) : |binary64 x| = binary64 |x| := by
  rcases le_total 0 x with h | h
  · rw [abs_of_nonneg h, abs_of_nonneg (binary64_nonneg x h)]
  · have h1 := binary64_nonneg (-x) (neg_nonneg.mpr h)
    rw [binary64_neg] at h1
    rw [abs_of_nonpos h, abs_of_nonpos (by linarith), binary64_neg]

/-- A frame moves `currentZ` no farther from `endZ` and keeps it within a common bound. -/
theorem SceneManager.zoomCamera.step_closer [FloorRing α] (endZ currentZ b : α)
    (hE : binary64 endZ = endZ) (hz : binary64 currentZ = currentZ)
    (hEb : |endZ| ≤ b) (hzb : |currentZ| ≤ b) :
    |endZ - SceneManager.zoomCamera.step endZ currentZ| ≤ |endZ - currentZ| ∧
    |SceneManager.zoomCamera.step endZ currentZ| ≤ b := by
  rw [abs_le] at hEb hzb
  rcases le_total currentZ endZ with h | h
  · obtain ⟨h1, h2⟩ := SceneManager.zoomCamera.step_between endZ currentZ hE hz h
    refine ⟨?_, abs_le.mpr ⟨by linarith, by linarith⟩⟩
    rw [abs_of_nonneg (by linarith), abs_of_nonneg (by linarith)]
    linarith
  · obtain ⟨h1, h2⟩ := SceneManager.zoomCamera.step_between_above endZ currentZ hE hz h
    refine ⟨?_, abs_le.mpr ⟨by linarith, by linarith⟩⟩
    rw [abs_of_nonpos (by linarith), abs_of_nonpos (by linarith)]
    linarith

theorem SceneManager.zoomCamera.animate_of_stop [FloorRing α] (endZ currentZ : α)
    (hstop : ¬ |binary64 (endZ - SceneManager.zoomCamera.step endZ currentZ)| > binary64 0.1) :
    ∀ fuel, 1 ≤ fuel →
      SceneManager.zoomCamera.animate endZ fuel currentZ
        = some [SceneManager.zoomCamera.step endZ currentZ] := by
  intro fuel hfuel
  obtain ⟨fuel1, rfl⟩ : ∃ fuel1, fuel = fuel1 + 1 := ⟨fuel - 1, by omega⟩
  simp only [SceneManager.zoomCamera.animate, hstop, if_false]

theorem SceneManager.zoomCamera.animate_of_far [FloorRing α] (endZ currentZ : α)
    (hfar : |binary64 (endZ - SceneManager.zoomCamera.step endZ currentZ)| > binary64 0.1)
    (fuel : ℕ) :
    SceneManager.zoomCamera.animate endZ (fuel + 1) currentZ
      = (SceneManager.zoomCamera.animate endZ fuel
          (SceneManager.zoomCamera.step endZ currentZ)).map
          (fun zs => SceneManager.zoomCamera.step endZ currentZ :: zs) := by
  simp only [SceneManager.zoomCamera.animate, hfar, if_true]

/-- A distance of at most 0.09 rounds to a double below the double nearest to 0.1. -/
theorem SceneManager.zoomCamera.stop_of_close [FloorRing α] (d : α) (h : |d| ≤ 9 / 100) :
    ¬ |binary64 d| > binary64 0.1 := by
  have h1 := binary64_abs_sub_le_of_abs_le |d| (9 / 100) (by rw [abs_abs]; exact h)
  have h2 := binary64_const_near (α := α)
  rw [abs_le] at h1
  rw [binary64_abs, not_lt]
  norm_num at h1 h2 ⊢
  linarith [h1.2]

/-- While the loop goes on the distance to `endZ` shrinks by the factor 0.99 at least. -/
theorem SceneManager.zoomCamera.step_contracts [FloorRing α] (endZ currentZ : α)
    (hE : binary64 endZ = endZ) (hz : binary64 currentZ = currentZ)
    (hEb : |endZ| ≤ 2 ^ 32) (hzb : |currentZ| ≤ 2 ^ 32)
    (hfar : |binary64 (endZ - SceneManager.zoomCamera.step endZ currentZ)| > binary64 0.1) :
    |endZ - SceneManager.zoomCamera.step endZ currentZ| ≤ 99 / 100 * |endZ - currentZ| := by
  obtain ⟨hc, -⟩ := SceneManager.zoomCamera.step_closer endZ currentZ _ hE hz hEb hzb
  have herr := SceneManager.zoomCamera.step_error endZ currentZ hEb hzb
  have h2 := binary64_const_near (α := α)
  rw [binary64_abs] at hfar
  have h3 := binary64_le_two_mul |endZ - SceneManager.zoomCamera.step endZ currentZ|
    (abs_nonneg _)
  have h4 : |endZ - SceneManager.zoomCamera.step endZ currentZ|
      ≤ |0.98 * (endZ - currentZ)| + 1 / 2 ^ 19 := by
    have := abs_sub_abs_le_abs_sub (endZ - SceneManager.zoomCamera.step endZ currentZ)
      (0.98 * (endZ - currentZ))
    linarith
  rw [abs_mul, abs_of_pos (by norm_num : (0 : α) < 0.98)] at h4
  norm_num at h2 h4 ⊢
  linarith

/-- The loop of `zoomCamera` stops within `n + 1` frames when `0.99 ^ n` times the distance
is at most 0.09, for doubles of magnitude at most `2 ^ 32`. -/
theorem SceneManager.zoomCamera.animate_stops [FloorRing α] (endZ : α)
    (hE : binary64 endZ = endZ) (hEb : |endZ| ≤ 2 ^ 32) :
    ∀ (n : ℕ) (currentZ : α), binary64 currentZ = currentZ → |currentZ| ≤ 2 ^ 32 →
      (99 / 100) ^ n * |endZ - currentZ| ≤ 9 / 100 →
      ∃ zs : List α, 0 < zs.length ∧
        (∀ fuel, zs.length ≤ fuel →
          SceneManager.zoomCamera.animate endZ fuel currentZ = some zs) ∧
        (∀ (j : ℕ) (a b : α), (currentZ :: zs)[j]? = some a → zs[j]? = some b →
          b = SceneManager.zoomCamera.step endZ a ∧ binary64 a = a ∧ |a| ≤ 2 ^ 32) ∧
        (∀ (j : ℕ) (b : α), zs[j]? = some b → j + 1 < zs.length →
          binary64 0.1 < |binary64 (endZ - b)|) ∧
        (∀ w, zs.getLast? = some w → |binary64 (endZ - w)| ≤ binary64 0.1) := by
  have hlast : ∀ currentZ : α, binary64 currentZ = currentZ → |currentZ| ≤ 2 ^ 32 →
      ¬ |binary64 (endZ - SceneManager.zoomCamera.step endZ currentZ)| > binary64 0.1 →
      ∃ zs : List α, 0 < zs.length ∧
        (∀ fuel, zs.length ≤ fuel →
          SceneManager.zoomCamera.animate endZ fuel currentZ = some zs) ∧
        (∀ (j : ℕ) (a b : α), (currentZ :: zs)[j]? = some a → zs[j]? = some b →
          b = SceneManager.zoomCamera.step endZ a ∧ binary64 a = a ∧ |a| ≤ 2 ^ 32) ∧
        (∀ (j : ℕ) (b : α), zs[j]? = some b → j + 1 < zs.length →
          binary64 0.1 < |binary64 (endZ - b)|) ∧
        (∀ w, zs.getLast? = some w → |binary64 (endZ - w)| ≤ binary64 0.1) := by
    intro z hz hzb hstop
    refine ⟨[SceneManager.zoomCamera.step endZ z], Nat.one_pos,
      SceneManager.zoomCamera.animate_of_stop endZ z hstop, ?_, ?_, ?_⟩
    · intro j a b ha hb
      cases j with
      | zero =>
        simp only [List.getElem?_cons_zero, Option.some.injEq] at ha hb
        subst ha
        exact ⟨hb.symm, hz, hzb⟩
      | succ j => simp at hb
    · intro j b _ hj
      simp at hj
    · intro w hw
      simp only [List.getLast?_singleton, Option.some.injEq] at hw
      subst hw
      exact not_lt.mp hstop
  intro n
  induction n with
  | zero =>
    intro z hz hzb hn
    apply hlast z hz hzb
    apply SceneManager.zoomCamera.stop_of_close
    obtain ⟨hc, -⟩ := SceneManager.zoomCamera.step_closer endZ z _ hE hz hEb hzb
    rw [pow_zero, one_mul] at hn
    linarith
  | succ n ih =>
    intro z hz hzb hn
    by_cases hfar : |binary64 (endZ - SceneManager.zoomCamera.step endZ z)| > binary64 0.1
    · obtain ⟨-, hb⟩ := SceneManager.zoomCamera.step_closer endZ z _ hE hz hEb hzb
      have hcon := SceneManager.zoomCamera.step_contracts endZ z hE hz hEb hzb hfar
      have hz1 : binary64 (SceneManager.zoomCamera.step endZ z)
          = SceneManager.zoomCamera.step endZ z := binary64_idem _
      obtain ⟨zs, hlen, hrun, hstep, hgo, hend⟩ :=
        ih (SceneManager.zoomCamera.step endZ z) hz1 hb (by
          have h0 : (0 : α) ≤ (99 / 100) ^ n := by positivity
          calc (99 / 100 : α) ^ n * |endZ - SceneManager.zoomCamera.step endZ z|
              ≤ (99 / 100) ^ n * (99 / 100 * |endZ - z|) :=
                mul_le_mul_of_nonneg_left hcon h0
            _ = (99 / 100) ^ (n + 1) * |endZ - z| := by ring
            _ ≤ 9 / 100 := hn)
      refine ⟨SceneManager.zoomCamera.step endZ z :: zs, Nat.succ_pos _, ?_, ?_, ?_, ?_⟩
      · intro fuel hfuel
        obtain ⟨fuel1, rfl⟩ : ∃ fuel1, fuel = fuel1 + 1 := ⟨fuel - 1, by
          simp only [List.length_cons] at hfuel; omega⟩
        rw [SceneManager.zoomCamera.animate_of_far endZ z hfar,
          hrun fuel1 (by simp only [List.length_cons] at hfuel; omega)]
        rfl
      · intro j a b ha hb1
        cases j with
        | zero =>
          simp only [List.getElem?_cons_zero, Option.some.injEq] at ha hb1
          subst ha
          exact ⟨hb1.symm, hz, hzb⟩
        | succ j =>
          rw [List.getElem?_cons_succ] at ha hb1
          exact hstep j a b ha hb1
      · intro j b hb1 hj
        cases j with
        | zero =>
          simp only [List.getElem?_cons_zero, Option.some.injEq] at hb1
          subst hb1
          exact hfar
        | succ j =>
          rw [List.getElem?_cons_succ] at hb1
          exact hgo j b hb1 (by simp only [List.length_cons] at hj; omega)
      · intro w hw
        apply hend w
        rw [← hw]
        cases zs with
        | nil => simp at hlen
        | cons y ys => simp [List.getLast?_cons_cons]
    · exact hlast z hz hzb hfar

/-- C13 (amended). Camera dolly termination in double precision: for doubles `startZ` and
`endZ` of magnitude at most `2 ^ 32` the frame loop of `zoomCamera` stops: there is a number
`n ≥ 1` of frames and a list `zs` of the `n` values written to the camera such that every
run with at least `n` frames of fuel returns `zs`. Each frame takes the previous value `a`
(first `startZ`) to `b = step endZ a`, which multiplies the distance to `endZ` by 0.98 up to
`2 ^ (-19)`, comes no farther from `endZ`, and lies between `a` and `endZ`; every value
written is between `startZ` and `endZ`; every frame before the last is computed farther
than the double nearest 0.1 from `endZ`, and the last value written has computed distance at
most that double, so its real distance is at most `0.1 + 2 ^ (-50)`. -/
theorem camera_dolly_terminates (startZ endZ : ℝ)
    (hs : binary64 startZ = startZ) (he : binary64 endZ = endZ)
    (hsb : |startZ| ≤ 2 ^ 32) (heb : |endZ| ≤ 2 ^ 32) :
    ∃ (n : ℕ) (zs : List ℝ), 0 < n ∧ zs.length = n ∧
      (∀ fuel, n ≤ fuel → SceneManager.zoomCamera startZ endZ fuel = some zs) ∧
      (∀ (j : ℕ) (a b : ℝ), (startZ :: zs)[j]? = some a → zs[j]? = some b →
        b = SceneManager.zoomCamera.step endZ a ∧
        |(endZ - b) - 0.98 * (endZ - a)| ≤ 1 / 2 ^ 19 ∧
        |endZ - b| ≤ |endZ - a| ∧
        (a ≤ endZ → a ≤ b ∧ b ≤ endZ) ∧ (endZ ≤ a → endZ ≤ b ∧ b ≤ a) ∧
        (j + 1 < n → binary64 0.1 < |binary64 (endZ - b)|)) ∧
      (∀ (j : ℕ) (z : ℝ), zs[j]? = some z →
        (startZ ≤ endZ → startZ ≤ z ∧ z ≤ endZ) ∧ (endZ ≤ startZ → endZ ≤ z ∧ z ≤ startZ)) ∧
      (∃ w, zs.getLast? = some w ∧ |binary64 (endZ - w)| ≤ binary64 0.1 ∧
        |endZ - w| ≤ 0.1 + 1 / 2 ^ 50) := by
  obtain ⟨n, hn⟩ : ∃ n : ℕ, (99 / 100 : ℝ) ^ n * |endZ - startZ| ≤ 9 / 100 := by
    rcases eq_or_ne (endZ - startZ) 0 with h | h
    · exact ⟨0, by rw [h]; norm_num⟩
    · have hpos : 0 < |endZ - startZ| := abs_pos.mpr h
      obtain ⟨n, hn⟩ := exists_pow_lt_of_lt_one
        (div_pos (by norm_num : (0 : ℝ) < 9 / 100) hpos) (by norm_num : (99 / 100 : ℝ) < 1)
      exact ⟨n, ((lt_div_iff₀ hpos).mp hn).le⟩
  obtain ⟨zs, hlen, hrun, hstep, hgo, hend⟩ :=
    SceneManager.zoomCamera.animate_stops endZ he heb n startZ hs hsb hn
  have hframe : ∀ (j : ℕ) (a b : ℝ), (startZ :: zs)[j]? = some a → zs[j]? = some b →
      b = SceneManager.zoomCamera.step endZ a ∧
      |(endZ - b) - 0.98 * (endZ - a)| ≤ 1 / 2 ^ 19 ∧
      |endZ - b| ≤ |endZ - a| ∧
      (a ≤ endZ → a ≤ b ∧ b ≤ endZ) ∧ (endZ ≤ a → endZ ≤ b ∧ b ≤ a) ∧
      (j + 1 < zs.length → binary64 0.1 < |binary64 (endZ - b)|) := by
    intro j a b ha hb
    obtain ⟨hba, haa, hab⟩ := hstep j a b ha hb
    subst hba
    exact ⟨rfl, SceneManager.zoomCamera.step_error endZ a heb hab,
      (SceneManager.zoomCamera.step_closer endZ a _ he haa heb hab).1,
      SceneManager.zoomCamera.step_between endZ a he haa,
      SceneManager.zoomCamera.step_between_above endZ a he haa,
      hgo j _ hb⟩
  have hside : ∀ (j : ℕ) (z : ℝ), zs[j]? = some z →
      (startZ ≤ endZ → startZ ≤ z ∧ z ≤ endZ) ∧
      (endZ ≤ startZ → endZ ≤ z ∧ z ≤ startZ) := by
    intro j
    induction j with
    | zero =>
      intro z hz
      obtain ⟨-, -, -, h1, h2, -⟩ := hframe 0 startZ z (by simp) hz
      exact ⟨h1, h2⟩
    | succ j ih =>
      intro z hz
      have hj : j < zs.length := by
        have := (List.getElem?_eq_some_iff.mp hz).1
        omega
      have ha : zs[j]? = some zs[j] := List.getElem?_eq_getElem hj
      obtain ⟨-, -, -, h1, h2, -⟩ := hframe (j + 1) zs[j] z
        (by rw [List.getElem?_cons_succ]; exact ha) hz
      obtain ⟨i1, i2⟩ := ih zs[j] ha
      constructor
      · intro h
        obtain ⟨k1, k2⟩ := i1 h
        obtain ⟨l1, l2⟩ := h1 k2
        exact ⟨by linarith, l2⟩
      · intro h
        obtain ⟨k1, k2⟩ := i2 h
        obtain ⟨l1, l2⟩ := h2 k1
        exact ⟨l1, by linarith⟩
  refine ⟨zs.length, zs, hlen, rfl, hrun, hframe, hside, ?_⟩
  have hne : zs ≠ [] := List.ne_nil_of_length_pos hlen
  refine ⟨zs.getLast hne, List.getLast?_eq_getLast zs hne, ?_⟩
  have hw := hend _ (List.getLast?_eq_getLast zs hne)
  refine ⟨hw, ?_⟩
  have h1 := binary64_abs_sub_le (endZ - zs.getLast hne)
  have h2 : |endZ - zs.getLast hne| - |binary64 (endZ - zs.getLast hne)|
      ≤ |binary64 (endZ - zs.getLast hne) - (endZ - zs.getLast hne)| := by
    rw [abs_sub_comm (binary64 (endZ - zs.getLast hne))]
    exact abs_sub_abs_le_abs_sub _ _
  rw [binary64_one_tenth] at hw
  norm_num at h1 hw ⊢
  linarith

/-- The theorem `camera_dolly_terminates` applies to a dolly from 40 to 60. -/
theorem camera_dolly_terminates_witness :
    binary64 (40 : ℝ) = 40 ∧ binary64 (60 : ℝ) = 60 ∧
    |(40 : ℝ)| ≤ 2 ^ 32 ∧ |(60 : ℝ)| ≤ 2 ^ 32 ∧
    ∃ (n : ℕ) (zs : List ℝ), 0 < n ∧ zs.length = n ∧
      (∀ fuel, n ≤ fuel → SceneManager.zoomCamera (40 : ℝ) 60 fuel = some zs) ∧
      (∀ (j : ℕ) (a b : ℝ), ((40 : ℝ) :: zs)[j]? = some a → zs[j]? = some b →
        b = SceneManager.zoomCamera.step 60 a ∧
        |(60 - b) - 0.98 * (60 - a)| ≤ 1 / 2 ^ 19 ∧
        |60 - b| ≤ |60 - a| ∧
        (a ≤ 60 → a ≤ b ∧ b ≤ 60) ∧ (60 ≤ a → 60 ≤ b ∧ b ≤ a) ∧
        (j + 1 < n → binary64 0.1 < |binary64 (60 - b)|)) ∧
      (∀ (j : ℕ) (z : ℝ), zs[j]? = some z →
        ((40 : ℝ) ≤ 60 → 40 ≤ z ∧ z ≤ 60) ∧ ((60 : ℝ) ≤ 40 → 60 ≤ z ∧ z ≤ 40)) ∧
      (∃ w, zs.getLast? = some w ∧ |binary64 (60 - w)| ≤ binary64 0.1 ∧
        |60 - w| ≤ 0.1 + 1 / 2 ^ 50) := by
  have h40 : binary64 (40 : ℝ) = 40 := by
    have h := roundToPrecision_intCast (α := ℝ) 53 40 (by norm_num)
    simpa [binary64] using h
  have h60 : binary64 (60 : ℝ) = 60 := by
    have h := roundToPrecision_intCast (α := ℝ) 53 60 (by norm_num)
    simpa [binary64] using h
  have hb40 : |(40 : ℝ)| ≤ 2 ^ 32 := by rw [abs_of_pos (by norm_num)]; norm_num
  have hb60 : |(60 : ℝ)| ≤ 2 ^ 32 := by rw [abs_of_pos (by norm_num)]; norm_num
  exact ⟨h40, h60, hb40, hb60, camera_dolly_terminates 40 60 h40 h60 hb40 hb60⟩

end Cosmos
